import Mathlib

/-!
# Verification of the grapho procedural-modeling core

Shallow embedding of the grapho repository (Rust) in Lean 4.

Conventions used throughout:
* `f32` values are modelled by exact rationals `Q`.  Every concrete value the
  claims mention (box half-extents, scale factors, bounds) is a small dyadic
  rational, which `f32` represents exactly, so the arithmetic in the claims is
  identical in both semantics.
* `u32` values are modelled by `ℕ`; where the source performs `u32` arithmetic
  whose wrap-around is observable (`Mesh::merge` index offsetting) we reduce
  modulo `2 ^ 32` explicitly.
* The irrational numeric primitives of the external `glam` crate
  (vector normalisation, trigonometric quaternion constructors) cannot be
  represented inside `Q`; they are collected in a `NumOracle` record and all
  theorems quantify over the oracle (adding only the hypotheses that are true
  of the real functions, e.g. that a zero Euler rotation yields the identity
  quaternion).
* The repository modules `core/src/graph.rs` and `core/src/eval.rs` are not
  part of the provided sources (only their callers are); the graph store and
  the generic evaluation engine are therefore modelled from the specification,
  see the marked definitions below.
-/

namespace Grapho

/-! ## Exact executable rationals

`f32` is modelled by exact normalized fractions.  Mathlib's `ℚ` is not used
because its arithmetic is defined through well-founded recursion that the
kernel cannot evaluate, while witnesses and counterexamples below evaluate
whole graph passes with `decide`.  `Q` keeps `num/den` in lowest terms with a
positive denominator, so structural (decidable) equality coincides with value
equality on every value the operations produce. -/

/-- Fuel-driven Euclidean algorithm (structural recursion, kernel-reducible). -/
def gcdAux : ℕ → ℕ → ℕ → ℕ
  | 0, _, b => b
  | _ + 1, 0, b => b
  | f + 1, a + 1, b => gcdAux f (b % (a + 1)) (a + 1)

/-- Greatest common divisor; the first argument strictly decreases each step,
so `a + 1` units of fuel always suffice. -/
def sgcd (a b : ℕ) : ℕ := gcdAux (a + 1) a b

/-- Exact rational with normalized representation (see the section comment). -/
structure Q where
  num : ℤ
  den : ℕ
deriving DecidableEq, Repr

namespace Q

/-- Normalizing constructor: divides out the gcd; a zero denominator (which
`f32` would turn into inf/NaN and which the repository never produces) maps
to `0`. -/
def mk0 (n : ℤ) (d : ℕ) : Q :=
  if d = 0 then ⟨0, 1⟩
  else
    let g := sgcd n.natAbs d
    ⟨n / (g : ℤ), d / g⟩

def ofInt (n : ℤ) : Q := ⟨n, 1⟩

def ofNat (n : ℕ) : Q := ⟨(n : ℤ), 1⟩

def add (a b : Q) : Q := mk0 (a.num * (b.den : ℤ) + b.num * (a.den : ℤ)) (a.den * b.den)

def neg (a : Q) : Q := ⟨-a.num, a.den⟩

def sub (a b : Q) : Q := add a (neg b)

def mul (a b : Q) : Q := mk0 (a.num * b.num) (a.den * b.den)

/-- Division, `a / b = (a.num · b.den) / (a.den · b.num)` with the sign moved
into the numerator. -/
def div (a b : Q) : Q :=
  mk0 (a.num * (b.den : ℤ) * (if b.num < 0 then -1 else 1)) (a.den * b.num.natAbs)

def ble (a b : Q) : Bool := a.num * (b.den : ℤ) ≤ b.num * (a.den : ℤ)

def blt (a b : Q) : Bool := a.num * (b.den : ℤ) < b.num * (a.den : ℤ)

instance : OfNat Q n := ⟨ofNat n⟩

instance : Add Q := ⟨add⟩

instance : Sub Q := ⟨sub⟩

instance : Neg Q := ⟨neg⟩

instance : Mul Q := ⟨mul⟩

instance : Div Q := ⟨div⟩

instance : LE Q := ⟨fun a b => ble a b = true⟩

instance : LT Q := ⟨fun a b => blt a b = true⟩

instance (a b : Q) : Decidable (a ≤ b) := inferInstanceAs (Decidable (ble a b = true))

instance (a b : Q) : Decidable (a < b) := inferInstanceAs (Decidable (blt a b = true))

/-- `f32::min` (no NaNs arise in the modelled values). -/
instance : Min Q := ⟨fun a b => if ble a b then a else b⟩

/-- `f32::max`. -/
instance : Max Q := ⟨fun a b => if ble a b then b else a⟩

instance : NatCast Q := ⟨ofNat⟩

end Q

/-- A 3-component vector of exact rationals, modelling `[f32; 3]` / `glam::Vec3`. -/
structure V3 where
  x : Q
  y : Q
  z : Q
deriving DecidableEq, Repr

/-- A 2-component vector of exact rationals, modelling `[f32; 2]`. -/
structure V2 where
  x : Q
  y : Q
deriving DecidableEq, Repr

/-- A 4-component vector of exact rationals, modelling `glam::Vec4`. -/
structure V4 where
  x : Q
  y : Q
  z : Q
  w : Q
deriving DecidableEq, Repr

namespace V3

def zero : V3 := ⟨0, 0, 0⟩

def add (a b : V3) : V3 := ⟨a.x + b.x, a.y + b.y, a.z + b.z⟩

def sub (a b : V3) : V3 := ⟨a.x - b.x, a.y - b.y, a.z - b.z⟩

def neg (a : V3) : V3 := ⟨-a.x, -a.y, -a.z⟩

def smul (c : Q) (a : V3) : V3 := ⟨c * a.x, c * a.y, c * a.z⟩

/-- Cross product, as in `glam::Vec3::cross`. -/
def cross (a b : V3) : V3 :=
  ⟨a.y * b.z - a.z * b.y, a.z * b.x - a.x * b.z, a.x * b.y - a.y * b.x⟩

/-- Squared euclidean length (exact in `Q`; the length itself is not). -/
def len2 (a : V3) : Q := a.x * a.x + a.y * a.y + a.z * a.z

end V3

/-- 4×4 matrix in column-major form, modelling `glam::Mat4`. -/
structure Mat4 where
  c0 : V4
  c1 : V4
  c2 : V4
  c3 : V4
deriving DecidableEq, Repr

/-- Quaternion, modelling `glam::Quat`. -/
structure Quat where
  x : Q
  y : Q
  z : Q
  w : Q
deriving DecidableEq, Repr

namespace Quat

/-- The identity quaternion. -/
def one : Quat := ⟨0, 0, 0, 1⟩

/-- Hamilton product, as in `glam::Quat::mul`. -/
def mul (a b : Quat) : Quat :=
  ⟨a.w * b.x + a.x * b.w + a.y * b.z - a.z * b.y,
   a.w * b.y - a.x * b.z + a.y * b.w + a.z * b.x,
   a.w * b.z + a.x * b.y - a.y * b.x + a.z * b.w,
   a.w * b.w - a.x * b.x - a.y * b.y - a.z * b.z⟩

end Quat

namespace Mat4

def vadd4 (a b : V4) : V4 := ⟨a.x + b.x, a.y + b.y, a.z + b.z, a.w + b.w⟩

def vsmul4 (c : Q) (a : V4) : V4 := ⟨c * a.x, c * a.y, c * a.z, c * a.w⟩

/-- `m * v` for a column vector `v`. -/
def mulVec (m : Mat4) (v : V4) : V4 :=
  vadd4 (vsmul4 v.x m.c0) (vadd4 (vsmul4 v.y m.c1) (vadd4 (vsmul4 v.z m.c2) (vsmul4 v.w m.c3)))

/-- Matrix product, as in `glam::Mat4::mul`. -/
def mul (a b : Mat4) : Mat4 :=
  ⟨a.mulVec b.c0, a.mulVec b.c1, a.mulVec b.c2, a.mulVec b.c3⟩

def identity : Mat4 :=
  ⟨⟨1, 0, 0, 0⟩, ⟨0, 1, 0, 0⟩, ⟨0, 0, 1, 0⟩, ⟨0, 0, 0, 1⟩⟩

/-- `glam::Mat4::from_translation`. -/
def fromTranslation (t : V3) : Mat4 :=
  ⟨⟨1, 0, 0, 0⟩, ⟨0, 1, 0, 0⟩, ⟨0, 0, 1, 0⟩, ⟨t.x, t.y, t.z, 1⟩⟩

/-- `glam::Mat4::from_scale`. -/
def fromScale (s : V3) : Mat4 :=
  ⟨⟨s.x, 0, 0, 0⟩, ⟨0, s.y, 0, 0⟩, ⟨0, 0, s.z, 0⟩, ⟨0, 0, 0, 1⟩⟩

/-- `glam::Mat4::from_quat` (standard rotation matrix of a unit quaternion). -/
def fromQuat (q : Quat) : Mat4 :=
  ⟨⟨1 - 2 * (q.y * q.y + q.z * q.z), 2 * (q.x * q.y + q.w * q.z), 2 * (q.x * q.z - q.w * q.y), 0⟩,
   ⟨2 * (q.x * q.y - q.w * q.z), 1 - 2 * (q.x * q.x + q.z * q.z), 2 * (q.y * q.z + q.w * q.x), 0⟩,
   ⟨2 * (q.x * q.z + q.w * q.y), 2 * (q.y * q.z - q.w * q.x), 1 - 2 * (q.x * q.x + q.y * q.y), 0⟩,
   ⟨0, 0, 0, 1⟩⟩

/-- `glam::Mat4::from_scale_rotation_translation`. -/
def fromScaleRotationTranslation (s : V3) (r : Quat) (t : V3) : Mat4 :=
  let m := fromQuat r
  ⟨vsmul4 s.x m.c0, vsmul4 s.y m.c1, vsmul4 s.z m.c2, ⟨t.x, t.y, t.z, 1⟩⟩

/-- `glam::Mat4::transform_point3`: affine transform of a point (no perspective divide). -/
def transformPoint3 (m : Mat4) (p : V3) : V3 :=
  let v := m.mulVec ⟨p.x, p.y, p.z, 1⟩
  ⟨v.x, v.y, v.z⟩

/-- `glam::Mat4::transform_vector3`: linear part only. -/
def transformVector3 (m : Mat4) (p : V3) : V3 :=
  let v := m.mulVec ⟨p.x, p.y, p.z, 0⟩
  ⟨v.x, v.y, v.z⟩

def transpose (m : Mat4) : Mat4 :=
  ⟨⟨m.c0.x, m.c1.x, m.c2.x, m.c3.x⟩,
   ⟨m.c0.y, m.c1.y, m.c2.y, m.c3.y⟩,
   ⟨m.c0.z, m.c1.z, m.c2.z, m.c3.z⟩,
   ⟨m.c0.w, m.c1.w, m.c2.w, m.c3.w⟩⟩

/-- 3×3 determinant helper for the cofactor expansion below. -/
def det3 (a b c d e f g h i : Q) : Q :=
  a * (e * i - f * h) - b * (d * i - f * g) + c * (d * h - e * g)

/-- Determinant of a 4×4 matrix by cofactor expansion along the first row
(rows/columns referenced through the column-major fields). -/
def det (m : Mat4) : Q :=
  m.c0.x * det3 m.c1.y m.c2.y m.c3.y m.c1.z m.c2.z m.c3.z m.c1.w m.c2.w m.c3.w
  - m.c1.x * det3 m.c0.y m.c2.y m.c3.y m.c0.z m.c2.z m.c3.z m.c0.w m.c2.w m.c3.w
  + m.c2.x * det3 m.c0.y m.c1.y m.c3.y m.c0.z m.c1.z m.c3.z m.c0.w m.c1.w m.c3.w
  - m.c3.x * det3 m.c0.y m.c1.y m.c2.y m.c0.z m.c1.z m.c2.z m.c0.w m.c1.w m.c2.w

/-- Row `r` of `m` with column `c` removed, as the 3×3 determinant of the rest:
cofactor of entry (row r, column c), without sign. -/
def minorEntry (m : Mat4) (r c : Fin 4) : Q :=
  let col : Fin 4 → V4 := fun j => match j with
    | 0 => m.c0 | 1 => m.c1 | 2 => m.c2 | 3 => m.c3
  let entry : Fin 4 → Fin 4 → Q := fun i j => match i with
    | 0 => (col j).x | 1 => (col j).y | 2 => (col j).z | 3 => (col j).w
  let rows : List (Fin 4) := (List.finRange 4).filter (· ≠ r)
  let cols : List (Fin 4) := (List.finRange 4).filter (· ≠ c)
  match rows, cols with
  | [r1, r2, r3], [c1, c2, c3] =>
    det3 (entry r1 c1) (entry r1 c2) (entry r1 c3)
         (entry r2 c1) (entry r2 c2) (entry r2 c3)
         (entry r3 c1) (entry r3 c2) (entry r3 c3)
  | _, _ => 0

/-- Inverse via the adjugate.  `glam::Mat4::inverse` requires a non-singular
matrix; on a singular one we follow the Lean convention `1/0 = 0` (the
repository never inverts a singular matrix, and no claim exercises this). -/
def inverse (m : Mat4) : Mat4 :=
  let d := m.det
  let inv := (1 : Q) / d
  let cof : Fin 4 → Fin 4 → Q := fun r c =>
    (if (r.val + c.val) % 2 = 0 then 1 else -1) * minorEntry m r c
  -- inverse columns: inverse[i][j] = cofactor(j, i) / det (adjugate transpose)
  let e : Fin 4 → Fin 4 → Q := fun r c => inv * cof c r
  ⟨⟨e 0 0, e 1 0, e 2 0, e 3 0⟩,
   ⟨e 0 1, e 1 1, e 2 1, e 3 1⟩,
   ⟨e 0 2, e 1 2, e 2 2, e 3 2⟩,
   ⟨e 0 3, e 1 3, e 2 3, e 3 3⟩⟩

end Mat4

/-! ## Mesh (core/src/mesh.rs) -/

/-- Axis-aligned bounding box, from `mesh.rs` `Aabb`. -/
structure Aabb where
  min : V3
  max : V3
deriving DecidableEq, Repr

/-- Mesh payload, from `mesh.rs` `Mesh`.  Indices are `u32` in the source and
modelled as `ℕ` (with explicit `% 2 ^ 32` where the source performs `u32`
arithmetic on them, see `Mesh.merge`). -/
structure Mesh where
  positions : List V3 := []
  indices : List ℕ := []
  normals : Option (List V3) := none
  uvs : Option (List V2) := none
deriving DecidableEq, Repr

/-! ## Numeric oracle for irrational primitives

`f32` square roots and trigonometry have no exact rational counterpart.  The
functions below are used by the source only in ways the claims never need to
evaluate numerically, so we abstract them: every theorem holds for an
arbitrary oracle (with explicit hypotheses where a claim relies on a true
fact about the real functions, e.g. `from_euler` of a zero angle).
`make_uv_sphere` is listed here as well: it is called from
`nodes_builtin.rs` but its defining module is not among the provided
sources, and the specification expressly leaves the geometry-generation
math of individual operators out of scope. -/

/-- Oracle bundling the irrational numeric primitives of `glam` and the
externally defined sphere generator.
Modelled from the spec: §1 treats the concrete geometry math of operators as
"a pluggable pure function"; `make_uv_sphere` is absent from the provided
sources. -/
structure NumOracle where
  /-- Models `v / v.length()` (for the caller-checked case `length > 0`). -/
  vnormalize : V3 → V3
  /-- Models `Quat::from_euler(EulerRot::XYZ, d.x·π/180, d.y·π/180, d.z·π/180)`,
  taking the degrees vector directly (the `π/180` scaling and the trigonometry
  are irrational, hence bundled). -/
  quatFromEulerXYZDeg : V3 → Quat
  /-- Models `Quat::from_rotation_arc(Vec3::Y, n.normalize())`, taking the
  unnormalized direction `n`. -/
  fromRotationArcY : V3 → Quat
  /-- Models `make_uv_sphere(radius, rows, cols)` from the missing mesh module. -/
  makeUvSphere : Q → ℕ → ℕ → Mesh

/-- A concrete oracle instance used by witnesses and counterexamples; the
behaviors they exercise do not depend on the oracle entries. -/
def testOracle : NumOracle where
  vnormalize := id
  quatFromEulerXYZDeg := fun _ => Quat.one
  fromRotationArcY := fun _ => Quat.one
  makeUvSphere := fun r _ _ => { positions := [⟨r, 0, 0⟩], indices := [] }

namespace Mesh

/-- `Mesh::with_positions_indices`. -/
def withPositionsIndices (positions : List V3) (indices : List ℕ) : Mesh :=
  { positions := positions, indices := indices, normals := none, uvs := none }

/-- Elementwise min/max accumulation used by `Mesh::bounds`. -/
def aabbFold (acc : Aabb) (p : V3) : Aabb :=
  ⟨⟨min acc.min.x p.x, min acc.min.y p.y, min acc.min.z p.z⟩,
   ⟨max acc.max.x p.x, max acc.max.y p.y, max acc.max.z p.z⟩⟩

/-- Bounds of a position list: `None` when empty, else fold of min/max. -/
def aabbOf : List V3 → Option Aabb
  | [] => none
  | p :: rest => some (rest.foldl aabbFold ⟨p, p⟩)

/-- `Mesh::bounds`. -/
def bounds (m : Mesh) : Option Aabb := aabbOf m.positions

/-- The index triples of `self.indices.chunks_exact(3)` (remainder dropped). -/
def chunks3 : List ℕ → List (ℕ × ℕ × ℕ)
  | i0 :: i1 :: i2 :: rest => (i0, i1, i2) :: chunks3 rest
  | _ => []

/-- One triangle step of the normal accumulation loop in `Mesh::compute_normals`. -/
def accumTri (positions : List V3) (accum : List V3) (tri : ℕ × ℕ × ℕ) : List V3 :=
  let (i0, i1, i2) := tri
  if i0 ≥ positions.length ∨ i1 ≥ positions.length ∨ i2 ≥ positions.length then
    accum
  else
    let p0 := (positions.get? i0).getD V3.zero
    let p1 := (positions.get? i1).getD V3.zero
    let p2 := (positions.get? i2).getD V3.zero
    let n := V3.cross (p1.sub p0) (p2.sub p0)
    let a1 := accum.set i0 (((accum.get? i0).getD V3.zero).add n)
    let a2 := a1.set i1 (((a1.get? i1).getD V3.zero).add n)
    a2.set i2 (((a2.get? i2).getD V3.zero).add n)

/-- Normalize-or-up fallback applied to each accumulated normal
(`if len > 0.0 then n / len else [0.0, 1.0, 0.0]`). -/
def normalizeOrUp (Ω : NumOracle) (n : V3) : V3 :=
  if n.len2 > 0 then Ω.vnormalize n else ⟨0, 1, 0⟩

/-- `Mesh::compute_normals`.  The Rust method mutates `self.normals` and
returns a `bool` its callers ignore; we return the updated mesh. -/
def computeNormals (Ω : NumOracle) (m : Mesh) : Mesh :=
  if ¬ (m.indices.length % 3 = 0) ∨ m.positions = [] then m
  else
    let accum := (chunks3 m.indices).foldl (accumTri m.positions)
      (List.replicate m.positions.length V3.zero)
    { m with normals := some (accum.map (normalizeOrUp Ω)) }

/-- `Mesh::transform`: positions through the full matrix, normals (when
present) through the inverse-transpose followed by normalize-or-up. -/
def transform (Ω : NumOracle) (matrix : Mat4) (m : Mesh) : Mesh :=
  let normalMatrix := matrix.inverse.transpose
  { m with
    positions := m.positions.map (Mat4.transformPoint3 matrix),
    normals := m.normals.map (fun ns => ns.map (fun n =>
      let v := normalMatrix.transformVector3 n
      if v.len2 > 0 then Ω.vnormalize v else ⟨0, 1, 0⟩)) }

/-- `2 ^ 32`, the `u32` modulus. -/
def u32Mod : ℕ := 4294967296

/-- `Mesh::merge`: concatenated positions, indices offset by the running
`u32` vertex offset (wrap-around explicit), normals/uvs concatenated iff every
input supplies them. -/
def merge (meshes : List Mesh) : Mesh :=
  let includeNormals := meshes.all (fun m => m.normals.isSome)
  let includeUvs := meshes.all (fun m => m.uvs.isSome)
  let posIdx := meshes.foldl (fun (acc : List V3 × List ℕ × ℕ) m =>
      (acc.1 ++ m.positions,
       acc.2.1 ++ m.indices.map (fun i => (i + acc.2.2) % u32Mod),
       (acc.2.2 + m.positions.length) % u32Mod))
    ([], [], 0)
  { positions := posIdx.1,
    indices := posIdx.2.1,
    normals := if includeNormals then
        some (meshes.flatMap (fun m => m.normals.getD [])) else none,
    uvs := if includeUvs then
        some (meshes.flatMap (fun m => m.uvs.getD [])) else none }

end Mesh

/-- `make_box` from `mesh.rs`. -/
def makeBox (size : V3) : Mesh :=
  let hx := size.x * (1/2)
  let hy := size.y * (1/2)
  let hz := size.z * (1/2)
  Mesh.withPositionsIndices
    [⟨-hx, -hy, -hz⟩, ⟨hx, -hy, -hz⟩, ⟨hx, hy, -hz⟩, ⟨-hx, hy, -hz⟩,
     ⟨-hx, -hy, hz⟩, ⟨hx, -hy, hz⟩, ⟨hx, hy, hz⟩, ⟨-hx, hy, hz⟩]
    [0, 2, 1, 0, 3, 2,
     4, 5, 6, 4, 6, 7,
     0, 1, 5, 0, 5, 4,
     2, 3, 7, 2, 7, 6,
     1, 2, 6, 1, 6, 5,
     3, 0, 4, 3, 4, 7]

/-- `make_grid` from `mesh.rs`.  `f32` division is modelled exactly in `Q`. -/
def makeGrid (size : V2) (divisions : ℕ × ℕ) : Mesh :=
  let width := max size.x 0
  let depth := max size.y 0
  let divX := max divisions.1 1
  let divZ := max divisions.2 1
  let stepX := width / (divX : Q)
  let stepZ := depth / (divZ : Q)
  let originX := -width * (1/2)
  let originZ := -depth * (1/2)
  let positions := (List.range (divZ + 1)).flatMap (fun z =>
    (List.range (divX + 1)).map (fun x =>
      (⟨originX + (x : Q) * stepX, 0, originZ + (z : Q) * stepZ⟩ : V3)))
  let stride := divX + 1
  let indices := (List.range divZ).flatMap (fun z =>
    (List.range divX).flatMap (fun x =>
      let i0 := z * stride + x
      let i1 := i0 + 1
      let i2 := i0 + stride
      let i3 := i2 + 1
      [i0, i2, i1, i1, i2, i3]))
  Mesh.withPositionsIndices positions indices

/-! ## Parameters and pin/node definitions

`ParamValue`, `NodeParams`, `PinType`, `PinKind`, `PinDefinition` and
`NodeDefinition` live in the missing `core/src/graph.rs`.
Modelled from the spec: §3 (NodeParams: "an ordered (key-sorted) map from
parameter name to a small closed set of value variants (Float, Int, Bool,
Vec2, Vec3, String)"; Pin: kind Input/Output and a declared PinType), with
the variant payloads as used by the present `nodes_builtin.rs`. -/

/-- Parameter value variants (graph.rs `ParamValue`). -/
inductive ParamValue where
  | float (v : Q)
  | int (v : ℤ)
  | bool (v : Bool)
  | vec2 (v : V2)
  | vec3 (v : V3)
  | str (v : String)
deriving DecidableEq, Repr

/-- Per-node parameter map (graph.rs `NodeParams`); the `BTreeMap` is
modelled as an association list with unique keys and `lookup` access. -/
structure NodeParams where
  values : List (String × ParamValue) := []
deriving DecidableEq, Repr

/-- Pin data type (graph.rs `PinType`). -/
inductive PinType where
  | mesh
  | float
  | int
  | bool
  | vec2
  | vec3
deriving DecidableEq, Repr

/-- Pin direction (graph.rs `PinKind`). -/
inductive PinKind where
  | input
  | output
deriving DecidableEq, Repr

/-- Pin blueprint inside a `NodeDefinition`. -/
structure PinDefinition where
  name : String
  pinType : PinType
deriving DecidableEq, Repr

/-- Node blueprint handed to `add_node`. -/
structure NodeDefinition where
  name : String
  category : String
  inputs : List PinDefinition
  outputs : List PinDefinition
deriving DecidableEq, Repr

/-! ## Builtin node kinds (core/src/nodes_builtin.rs) -/

/-- `BuiltinNodeKind`. -/
inductive BuiltinNodeKind where
  | box
  | grid
  | sphere
  | transform
  | merge
  | copyToPoints
  | output
deriving DecidableEq, Repr

namespace BuiltinNodeKind

/-- `BuiltinNodeKind::name`. -/
def name : BuiltinNodeKind → String
  | .box => "Box"
  | .grid => "Grid"
  | .sphere => "Sphere"
  | .transform => "Transform"
  | .merge => "Merge"
  | .copyToPoints => "Copy to Points"
  | .output => "Output"

end BuiltinNodeKind

/-- `builtin_kind_from_name`. -/
def builtinKindFromName (name : String) : Option BuiltinNodeKind :=
  if name = "Box" then some .box
  else if name = "Grid" then some .grid
  else if name = "Sphere" then some .sphere
  else if name = "Transform" then some .transform
  else if name = "Merge" then some .merge
  else if name = "Copy to Points" then some .copyToPoints
  else if name = "Output" then some .output
  else none

/-- `node_definition`. -/
def nodeDefinition (kind : BuiltinNodeKind) : NodeDefinition :=
  let meshIn : PinDefinition := ⟨"in", .mesh⟩
  let meshOut : PinDefinition := ⟨"out", .mesh⟩
  match kind with
  | .box => ⟨kind.name, "Sources", [], [meshOut]⟩
  | .grid => ⟨kind.name, "Sources", [], [meshOut]⟩
  | .sphere => ⟨kind.name, "Sources", [], [meshOut]⟩
  | .transform => ⟨kind.name, "Operators", [meshIn], [meshOut]⟩
  | .merge => ⟨kind.name, "Operators", [⟨"a", .mesh⟩, ⟨"b", .mesh⟩], [meshOut]⟩
  | .copyToPoints =>
      ⟨kind.name, "Operators", [⟨"source", .mesh⟩, ⟨"template", .mesh⟩], [meshOut]⟩
  | .output => ⟨kind.name, "Outputs", [meshIn], []⟩

/-- `builtin_definitions`. -/
def builtinDefinitions : List NodeDefinition :=
  [nodeDefinition .box, nodeDefinition .grid, nodeDefinition .sphere,
   nodeDefinition .transform, nodeDefinition .merge,
   nodeDefinition .copyToPoints, nodeDefinition .output]

/-- `default_params`.  The `BTreeMap` holds keys in sorted order; only
`lookup` semantics are observable, and the insertion order below matches the
source. -/
def defaultParams (kind : BuiltinNodeKind) : NodeParams :=
  match kind with
  | .box => ⟨[("size", .vec3 ⟨1, 1, 1⟩), ("center", .vec3 ⟨0, 0, 0⟩)]⟩
  | .grid => ⟨[("size", .vec2 ⟨2, 2⟩), ("rows", .int 10), ("cols", .int 10),
               ("center", .vec3 ⟨0, 0, 0⟩)]⟩
  | .sphere => ⟨[("radius", .float 1), ("rows", .int 16), ("cols", .int 32),
                 ("center", .vec3 ⟨0, 0, 0⟩)]⟩
  | .transform => ⟨[("translate", .vec3 ⟨0, 0, 0⟩), ("rotate_deg", .vec3 ⟨0, 0, 0⟩),
                    ("scale", .vec3 ⟨1, 1, 1⟩), ("pivot", .vec3 ⟨0, 0, 0⟩)]⟩
  | .merge => ⟨[]⟩
  | .copyToPoints => ⟨[("align_to_normals", .bool true), ("translate", .vec3 ⟨0, 0, 0⟩),
                       ("rotate_deg", .vec3 ⟨0, 0, 0⟩), ("scale", .vec3 ⟨1, 1, 1⟩)]⟩
  | .output => ⟨[]⟩

/-- `param_vec2`. -/
def paramVec2 (params : NodeParams) (key : String) (default : V2) : V2 :=
  match params.values.lookup key with
  | some (.vec2 v) => v
  | _ => default

/-- `param_float`: note that it also accepts an `Int` value, converting it. -/
def paramFloat (params : NodeParams) (key : String) (default : Q) : Q :=
  match params.values.lookup key with
  | some (.float v) => v
  | some (.int v) => Q.ofInt v
  | _ => default

/-- `param_int`. -/
def paramInt (params : NodeParams) (key : String) (default : ℤ) : ℤ :=
  match params.values.lookup key with
  | some (.int v) => v
  | _ => default

/-- `param_bool`. -/
def paramBool (params : NodeParams) (key : String) (default : Bool) : Bool :=
  match params.values.lookup key with
  | some (.bool v) => v
  | _ => default

/-- `param_vec3`. -/
def paramVec3 (params : NodeParams) (key : String) (default : V3) : V3 :=
  match params.values.lookup key with
  | some (.vec3 v) => v
  | _ => default

/-- The transform matrix construction of the `Transform` branch of
`compute_mesh_node` (left-associated products as in the source). -/
def trMatrix (Ω : NumOracle) (translate rotateDeg scale pivot : V3) : Mat4 :=
  let quat := Ω.quatFromEulerXYZDeg rotateDeg
  Mat4.mul (Mat4.mul (Mat4.mul (Mat4.mul
    (Mat4.fromTranslation translate)
    (Mat4.fromTranslation pivot))
    (Mat4.fromQuat quat))
    (Mat4.fromScale scale))
    (Mat4.fromTranslation pivot.neg)

/-- The per-copy loop body of the `Copy to Points` branch. -/
def copyAt (Ω : NumOracle) (source : Mesh) (alignToNormals : Bool)
    (normals : List V3) (userQuat : Quat) (scale translate : V3)
    (idx : ℕ) (pos : V3) : Mesh :=
  let rotation :=
    if alignToNormals then
      let normal := (normals.get? idx).getD ⟨0, 1, 0⟩
      -- `0.0001` is an `f32` literal; its rounded value differs from 1/10000
      -- by less than 2⁻³³, indistinguishable for every value the claims use.
      if normal.len2 > Q.div 1 10000 then
        Quat.mul (Ω.fromRotationArcY normal) userQuat
      else userQuat
    else userQuat
  let matrix := Mat4.fromScaleRotationTranslation scale rotation (pos.add translate)
  Mesh.transform Ω matrix source

/-- `compute_mesh_node`. -/
def computeMeshNode (Ω : NumOracle) (kind : BuiltinNodeKind) (params : NodeParams)
    (inputs : List Mesh) : Except String Mesh :=
  match kind with
  | .box =>
      let size := paramVec3 params "size" ⟨1, 1, 1⟩
      let center := paramVec3 params "center" ⟨0, 0, 0⟩
      let mesh := makeBox size
      let mesh := if center ≠ (⟨0, 0, 0⟩ : V3) then
          Mesh.transform Ω (Mat4.fromTranslation center) mesh else mesh
      let mesh := if mesh.normals.isNone then Mesh.computeNormals Ω mesh else mesh
      .ok mesh
  | .grid =>
      let size := paramVec2 params "size" ⟨2, 2⟩
      let rows := (max (paramInt params "rows" 10) 1).toNat
      let cols := (max (paramInt params "cols" 10) 1).toNat
      let center := paramVec3 params "center" ⟨0, 0, 0⟩
      let divisions := (cols, rows)
      let mesh := makeGrid size divisions
      let mesh := if center ≠ (⟨0, 0, 0⟩ : V3) then
          Mesh.transform Ω (Mat4.fromTranslation center) mesh else mesh
      let mesh := if mesh.normals.isNone then Mesh.computeNormals Ω mesh else mesh
      .ok mesh
  | .sphere =>
      let radius := max (paramFloat params "radius" 1) 0
      let rows := (max (paramInt params "rows" 16) 3).toNat
      let cols := (max (paramInt params "cols" 32) 3).toNat
      let center := paramVec3 params "center" ⟨0, 0, 0⟩
      let mesh := Ω.makeUvSphere radius rows cols
      let mesh := if center ≠ (⟨0, 0, 0⟩ : V3) then
          Mesh.transform Ω (Mat4.fromTranslation center) mesh else mesh
      let mesh := if mesh.normals.isNone then Mesh.computeNormals Ω mesh else mesh
      .ok mesh
  | .transform =>
      match inputs.get? 0 with
      | none => .error "Transform requires a mesh input"
      | some input =>
          let translate := paramVec3 params "translate" ⟨0, 0, 0⟩
          let rotateDeg := paramVec3 params "rotate_deg" ⟨0, 0, 0⟩
          let scale := paramVec3 params "scale" ⟨1, 1, 1⟩
          let pivot := paramVec3 params "pivot" ⟨0, 0, 0⟩
          .ok (Mesh.transform Ω (trMatrix Ω translate rotateDeg scale pivot) input)
  | .merge =>
      if inputs = [] then .error "Merge requires at least one mesh input"
      else .ok (Mesh.merge inputs)
  | .copyToPoints =>
      match inputs.get? 0 with
      | none => .error "Copy to Points requires a source mesh"
      | some source =>
          match inputs.get? 1 with
          | none => .error "Copy to Points requires a template mesh"
          | some template =>
              if template.positions = [] then
                .error "Copy to Points requires template points"
              else
                let alignToNormals := paramBool params "align_to_normals" true
                let translate := paramVec3 params "translate" ⟨0, 0, 0⟩
                let rotateDeg := paramVec3 params "rotate_deg" ⟨0, 0, 0⟩
                let scale := paramVec3 params "scale" ⟨1, 1, 1⟩
                let normals0 := template.normals.getD []
                let normals :=
                  if alignToNormals ∧ normals0.length ≠ template.positions.length then
                    let temp := if template.normals.isNone then
                        Mesh.computeNormals Ω template else template
                    temp.normals.getD []
                  else normals0
                let userQuat := Ω.quatFromEulerXYZDeg rotateDeg
                let copies := (template.positions.enum.map (fun pi =>
                  copyAt Ω source alignToNormals normals userQuat scale translate pi.1 pi.2))
                .ok (Mesh.merge copies)
  | .output =>
      match inputs.get? 0 with
      | none => .error "Output requires a mesh input"
      | some input => .ok input

/-! ## Graph store

Modelled from the spec: the module `core/src/graph.rs` is not among the
provided sources; the definitions in this section follow §3 (data model),
§4.1 (operations and contracts) and §7 (failing structural mutations leave
the graph unchanged) of the specification.  Ids are monotonically increasing
naturals (spec §9, id-reuse note). -/

/-- Node id (spec §3: process-unique, never reused). -/
abbrev NodeId := ℕ

/-- Pin id. -/
abbrev PinId := ℕ

/-- Link id. -/
abbrev LinkId := ℕ

/-- A pin (spec §3: identity, owning node, kind, type, name). -/
structure Pin where
  id : PinId
  node : NodeId
  kind : PinKind
  pinType : PinType
  name : String
deriving DecidableEq, Repr

/-- A node (spec §3: identity, display name, category, ordered pin id lists,
parameter map). -/
structure Node where
  id : NodeId
  name : String
  category : String
  inputs : List PinId
  outputs : List PinId
  params : NodeParams
deriving DecidableEq, Repr

/-- A link from an output pin to an input pin (spec §3). -/
structure Link where
  id : LinkId
  fromPin : PinId
  toPin : PinId
deriving DecidableEq, Repr

/-- Structural errors of graph mutation and evaluation ordering
(spec §4.1, §7). -/
inductive GraphError where
  | typeMismatch
  | wrongPinKind
  | inputAlreadyConnected
  | wouldCreateCycle
  | cycleDetected
  | unknownNode
  | unknownPin
deriving DecidableEq, Repr

/-- The graph: insertion-ordered stores keyed by id (spec §3) plus the next
fresh id. -/
structure Graph where
  nodes : List Node := []
  pins : List Pin := []
  links : List Link := []
  nextId : ℕ := 1
deriving DecidableEq, Repr

namespace Graph

/-- Lookup accessor `node(id)` (spec §6). -/
def findNode (g : Graph) (n : NodeId) : Option Node :=
  g.nodes.find? (fun nd => nd.id = n)

/-- Lookup accessor `pin(id)` (spec §6). -/
def findPin (g : Graph) (p : PinId) : Option Pin :=
  g.pins.find? (fun pn => pn.id = p)

def containsNode (g : Graph) (n : NodeId) : Bool := (g.findNode n).isSome

/-- Owning node of a pin. -/
def pinOwner (g : Graph) (p : PinId) : Option NodeId :=
  (g.findPin p).map Pin.node

end Graph

/-- Fuel-driven helper for `dedupFirst` (structural recursion so that the
kernel can evaluate it; one unit of fuel per element always suffices). -/
def dedupFirstAux : ℕ → List NodeId → List NodeId
  | 0, _ => []
  | _, [] => []
  | fuel + 1, a :: rest => a :: dedupFirstAux fuel (rest.filter (fun b => b ≠ a))

/-- Deduplication keeping the first occurrence of each element (spec §4.1:
`upstream_nodes` returns pins-ordered, deduplicated nodes). -/
def dedupFirst (l : List NodeId) : List NodeId := dedupFirstAux l.length l

namespace Graph

/-- `upstream_nodes` (spec §4.1): the distinct nodes feeding directly into
the node's inputs, in input-pin order, deduplicated. -/
def upstreamNodes (g : Graph) (n : NodeId) : List NodeId :=
  match g.findNode n with
  | none => []
  | some node =>
      dedupFirst (node.inputs.flatMap (fun p =>
        g.links.filterMap (fun l =>
          if l.toPin = p then g.pinOwner l.fromPin else none)))

/-- Direct successors in the node-level dependency graph: the nodes that `n`
feeds into. -/
def succs (g : Graph) (n : NodeId) : List NodeId :=
  g.links.filterMap (fun l =>
    match g.pinOwner l.fromPin, g.pinOwner l.toPin with
    | some a, some b => if a = n then some b else none
    | _, _ => none)

/-- One expansion step of the forward-reachability iteration (spec §4.1:
depth-first traversal from the candidate edge's destination looking for a
path back to the source; we compute the forward-reachable set by saturation,
which visits exactly the same nodes). -/
def reachStep (g : Graph) (s : List NodeId) : List NodeId :=
  dedupFirst (s ++ s.flatMap (succs g))

/-- Nodes reachable from `start` (along the feeds-into direction), computed
by `g.links.length + 1` saturation steps — enough to reach a fixpoint, see
`reachSet_closed`. -/
def reachSet (g : Graph) (start : NodeId) : List NodeId :=
  (g.links.length + 1).iterate (reachStep g) [start]

/-- Everything the reachability iteration can ever contain: the start node
and the owners of link target pins (used to bound the saturation). -/
def reachUniv (g : Graph) (start : NodeId) : List NodeId :=
  start :: g.links.filterMap (fun l => g.pinOwner l.toPin)

/-- `add_link`'s cycle test (spec §4.1): the new edge `src → dst` closes a
cycle iff `src` is already reachable from `dst`. -/
def wouldCreateCycle (g : Graph) (src dst : NodeId) : Bool :=
  src ∈ reachSet g dst

/-- `add_link` (spec §4.1): checks in the order the contract lists them;
on any failure the graph is returned unchanged (spec §7: no partial edits). -/
def addLink (g : Graph) (f t : PinId) : Graph × Except GraphError LinkId :=
  match g.findPin f, g.findPin t with
  | some pf, some pt =>
      if pf.pinType ≠ pt.pinType then (g, .error .typeMismatch)
      else if ¬ (pf.kind = .output ∧ pt.kind = .input) then (g, .error .wrongPinKind)
      else if g.links.any (fun l => l.toPin = t) then (g, .error .inputAlreadyConnected)
      else if wouldCreateCycle g pf.node pt.node then (g, .error .wouldCreateCycle)
      else
        let lid := g.nextId
        ({ g with links := g.links ++ [⟨lid, f, t⟩], nextId := lid + 1 }, .ok lid)
  | _, _ => (g, .error .unknownPin)

/-- Insert-or-overwrite into the parameter map. -/
def insertParam (ps : NodeParams) (key : String) (v : ParamValue) : NodeParams :=
  ⟨(key, v) :: ps.values.filter (fun kv => kv.1 ≠ key)⟩

/-- `set_param` (spec §4.1): `UnknownNode` if absent, else unconditional
insert/overwrite. -/
def setParam (g : Graph) (n : NodeId) (key : String) (v : ParamValue) :
    Graph × Except GraphError Unit :=
  if g.containsNode n then
    ({ g with nodes := g.nodes.map (fun nd =>
        if nd.id = n then { nd with params := insertParam nd.params key v } else nd) },
     .ok ())
  else (g, .error .unknownNode)

/-- `add_node` (spec §4.1): allocates fresh ids for the node and its pins per
the definition; never fails. -/
def addNode (g : Graph) (defn : NodeDefinition) : Graph × NodeId :=
  let nid := g.nextId
  let inPins := defn.inputs.enum.map (fun (i, pd) =>
    (⟨nid + 1 + i, nid, .input, pd.pinType, pd.name⟩ : Pin))
  let outPins := defn.outputs.enum.map (fun (i, pd) =>
    (⟨nid + 1 + defn.inputs.length + i, nid, .output, pd.pinType, pd.name⟩ : Pin))
  let node : Node :=
    ⟨nid, defn.name, defn.category, inPins.map Pin.id, outPins.map Pin.id, ⟨[]⟩⟩
  ({ g with nodes := g.nodes ++ [node], pins := g.pins ++ inPins ++ outPins,
            nextId := nid + 1 + defn.inputs.length + defn.outputs.length }, nid)

/-- `remove_links_for_pin` (spec §4.1): removes all links touching the pin;
no-op when none exist, never fails. -/
def removeLinksForPin (g : Graph) (p : PinId) : Graph :=
  { g with links := g.links.filter (fun l => l.fromPin ≠ p ∧ l.toPin ≠ p) }

/-- `remove_link_between` (spec §4.1). -/
def removeLinkBetween (g : Graph) (f t : PinId) : Graph :=
  { g with links := g.links.filter (fun l => ¬ (l.fromPin = f ∧ l.toPin = t)) }

/-- `remove_node` (spec §4.1): removes the node, its pins, and any link
touching those pins; idempotent no-op on an unknown id. -/
def removeNode (g : Graph) (n : NodeId) : Graph :=
  { g with
    nodes := g.nodes.filter (fun nd => nd.id ≠ n),
    pins := g.pins.filter (fun pn => pn.node ≠ n),
    links := g.links.filter (fun l =>
      ¬ (g.pinOwner l.fromPin = some n ∨ g.pinOwner l.toPin = some n)) }

end Graph

namespace Graph

/-- Depth-first post-order visit used by `topo_sort_from` (spec §4.1).  `acc`
doubles as the visited set; the fuel bound makes the recursion total — on an
acyclic reachable subgraph `g.nodes.length + 1` levels always suffice, and on
a cyclic one the truncated result fails the validation in `topoSortFrom`,
which is exactly the defensive cycle detection the spec requires. -/
def topoVisit (g : Graph) : ℕ → List NodeId → NodeId → List NodeId
  | 0, acc, _ => acc
  | fuel + 1, acc, n =>
      if n ∈ acc then acc
      else ((g.upstreamNodes n).foldl (topoVisit g fuel) acc) ++ [n]

/-- Prefix validation of a topological order: every listed node exists, is
listed only once, and all its direct upstream nodes appear before it. -/
def orderedFrom (g : Graph) (seen : List NodeId) : List NodeId → Bool
  | [] => true
  | n :: rest =>
      g.containsNode n ∧ n ∉ seen ∧ (g.upstreamNodes n).all (fun u => u ∈ seen) ∧
      orderedFrom g (seen ++ [n]) rest

/-- Validation that every listed node except the last feeds some node listed
after it, so every node in the order is an ancestor of the final (target)
node. -/
def feedsChain (g : Graph) : List NodeId → Bool
  | [] => true
  | [_] => true
  | n :: rest => rest.any (fun m => n ∈ g.upstreamNodes m) ∧ feedsChain g rest

/-- Full validation of a candidate order for target `t`. -/
def checkTopo (g : Graph) (t : NodeId) (order : List NodeId) : Bool :=
  orderedFrom g [] order ∧ feedsChain g order ∧ order.getLast? = some t

/-- `topo_sort_from` (spec §4.1): an ordering of the target and everything it
transitively depends on, every node after all of its upstream dependencies;
`CycleDetected` when the reachable subgraph is not a DAG.  The result of the
depth-first visit is validated against the contract; a cycle (which truncates
or duplicates the visit) is exactly what makes validation fail. -/
def topoSortFrom (g : Graph) (t : NodeId) : Except GraphError (List NodeId) :=
  if ¬ g.containsNode t then .error .unknownNode
  else
    let order := topoVisit g (g.nodes.length + 1) [] t
    if checkTopo g t order then .ok order else .error .cycleDetected

end Graph

/-! ## Evaluation engine

Modelled from the spec: the module `core/src/eval.rs` is not among the
provided sources.  The definitions follow §4.2 (state machine per evaluation
call), §3 (cache entry / EvalReport shapes) and the error taxonomy of §4.2.
The wall-clock readings the engine records as per-node durations are an
external input and are supplied as a `clock` function; the computed-node set
and the cache-miss counter record successful fresh computes, exactly the
events §4.2 step 3c labels "record a cache miss" (failures only record a
`Node` error and upstream skips only an `Upstream` error). -/

/-- Report errors (spec §4.2 taxonomy). -/
inductive EvalError where
  | node (node : NodeId) (message : String)
  | upstream (node : NodeId) (upstream : List NodeId)
deriving DecidableEq, Repr

/-- A fingerprint is a structural serialization of node kind + parameter
snapshot + ordered upstream fingerprints (spec §3, §9), flattened to a list
of integers with length-prefixed variable parts. -/
abbrev Fingerprint := List ℤ

def encodeString (s : String) : List ℤ :=
  ((s.length : ℤ)) :: s.data.map (fun c => ((c.toNat : ℤ)))

def encodeQ (q : Q) : List ℤ := [q.num, (q.den : ℤ)]

def encodeParamValue : ParamValue → List ℤ
  | .float v => 0 :: encodeQ v
  | .int v => [1, v]
  | .bool v => [2, if v then 1 else 0]
  | .vec2 v => 3 :: (encodeQ v.x ++ encodeQ v.y)
  | .vec3 v => 4 :: (encodeQ v.x ++ encodeQ v.y ++ encodeQ v.z)
  | .str s => 5 :: encodeString s

def encodeParams (ps : NodeParams) : List ℤ :=
  ((ps.values.length : ℤ)) ::
    ps.values.flatMap (fun kv => encodeString kv.1 ++ encodeParamValue kv.2)

/-- Structural fingerprint of kind name + params + upstream fingerprints. -/
def mkFingerprint (kindName : String) (params : NodeParams)
    (ups : List Fingerprint) : Fingerprint :=
  encodeString kindName ++ encodeParams params ++
    ((ups.length : ℤ)) :: ups.flatMap (fun u => ((u.length : ℤ)) :: u)

/-- Cache entry (spec §3): fingerprint of what produced the last result and
whether that attempt succeeded.  The result payload itself is owned by the
caller-specific store (`MeshEvalState.outputs` for mesh evaluation). -/
structure EvalEntry where
  fingerprint : Fingerprint
  success : Bool
deriving DecidableEq, Repr

/-- Engine cache persisting across passes (spec §2, §3), keyed by node id. -/
structure EvalState where
  cache : List (NodeId × EvalEntry) := []
deriving DecidableEq, Repr

/-- Per-node telemetry (spec §3: duration, whether served from cache). -/
structure EvalNodeReport where
  durationMs : Q
  cached : Bool
deriving DecidableEq, Repr

/-- Hit/miss counters (spec §3). -/
structure EvalCacheStats where
  hits : ℕ
  misses : ℕ
deriving DecidableEq, Repr

/-- Evaluation report (spec §3). -/
structure EvalReport where
  target : NodeId
  outputValid : Bool
  computed : List NodeId
  stats : EvalCacheStats
  nodes : List (NodeId × EvalNodeReport)
  errors : List EvalError
deriving DecidableEq, Repr

/-- In-flight state of one evaluation pass over a caller store `σ`:
the cache, the root-cause map of failed nodes, and the report accumulators. -/
structure PassSt (σ : Type) where
  cache : List (NodeId × EvalEntry)
  failRoots : List (NodeId × List NodeId)
  errors : List EvalError
  computed : List NodeId
  hits : ℕ
  misses : ℕ
  reports : List (NodeId × EvalNodeReport)
  store : σ

/-- Cache test of §4.2 step 3b: entry present, fingerprint matches, prior
attempt succeeded. -/
def cacheHit (e : Option EvalEntry) (fp : Fingerprint) : Bool :=
  match e with
  | some entry => entry.success && decide (entry.fingerprint = fp)
  | none => false

/-- §4.2 step 3 for one node: cache check, upstream-failure propagation
(skipping the compute function), or fresh compute through the caller's
closure. -/
def stepNode {σ : Type} (g : Graph) (fps : List (NodeId × Fingerprint))
    (clock : NodeId → Q) (compute : NodeId → NodeParams → σ → σ × Option String)
    (st : PassSt σ) (n : NodeId) : PassSt σ :=
  let fp := (fps.lookup n).getD []
  if cacheHit (st.cache.lookup n) fp then
    { st with hits := st.hits + 1, reports := (n, ⟨0, true⟩) :: st.reports }
  else
    let ups := g.upstreamNodes n
    let failedUps := ups.filter (fun u => (st.failRoots.lookup u).isSome)
    if failedUps.isEmpty then
      let params := match g.findNode n with
        | some nd => nd.params
        | none => (⟨[]⟩ : NodeParams)
      let res := compute n params st.store
      match res.2 with
      | none =>
          { st with cache := (n, ⟨fp, true⟩) :: st.cache,
                    computed := st.computed ++ [n], misses := st.misses + 1,
                    reports := (n, ⟨clock n, false⟩) :: st.reports, store := res.1 }
      | some msg =>
          { st with errors := st.errors ++ [.node n msg],
                    failRoots := (n, [n]) :: st.failRoots, store := res.1 }
    else
      let roots := dedupFirst (failedUps.flatMap (fun u => (st.failRoots.lookup u).getD []))
      { st with errors := st.errors ++ [.upstream n roots],
                failRoots := (n, roots) :: st.failRoots }

/-- Fingerprints of every node in the pass, assigned in topological order so
each node sees the fingerprints of its upstream nodes (§4.2 step 3a); a pure
function of the graph and the order. -/
def fingerprintsFor (g : Graph) (order : List NodeId) : List (NodeId × Fingerprint) :=
  order.foldl (fun acc n =>
    let upFps := (g.upstreamNodes n).map (fun u => (acc.lookup u).getD [])
    match g.findNode n with
    | some nd => (n, mkFingerprint nd.name nd.params upFps) :: acc
    | none => (n, mkFingerprint "" ⟨[]⟩ upFps) :: acc) []

/-- `evaluate_from_with` (spec §4.2): resolve the target, topologically order
its ancestry, run the per-node pass, and finalize the report.  `output_valid`
is stated in §4.2 step 4 as "the target was computed (cache hit or fresh
success) with no error recorded for it or anywhere in its ancestry"; since
the validated order lists exactly the target's ancestry and every ordered
node that is neither a hit nor a fresh success contributes an error, this is
equivalent to the error list being empty. -/
def evaluateFromWith {σ : Type} (g : Graph) (target : NodeId) (clock : NodeId → Q)
    (compute : NodeId → NodeParams → σ → σ × Option String)
    (st0 : EvalState) (store0 : σ) : Except GraphError (EvalReport × EvalState × σ) :=
  match g.topoSortFrom target with
  | .error e => .error e
  | .ok order =>
      let fps := fingerprintsFor g order
      let init : PassSt σ := ⟨st0.cache, [], [], [], 0, 0, [], store0⟩
      let fin := order.foldl (stepNode g fps clock compute) init
      .ok (⟨target, fin.errors.isEmpty, fin.computed, ⟨fin.hits, fin.misses⟩,
            fin.reports, fin.errors⟩,
           ⟨fin.cache⟩, fin.store)

/-! ## Mesh evaluation (core/src/mesh_eval.rs) -/

/-- `MeshEvalState`: engine cache plus the per-node mesh outputs map. -/
structure MeshEvalState where
  eval : EvalState := ⟨[]⟩
  outputs : List (NodeId × Mesh) := []
deriving DecidableEq, Repr

/-- `MeshEvalResult`. -/
structure MeshEvalResult where
  report : EvalReport
  output : Option Mesh
deriving DecidableEq, Repr

/-- The input-gathering loop of the closure in `evaluate_mesh_graph`:
the ordered upstream meshes, failing on the first missing entry. -/
def gatherInputs (store : List (NodeId × Mesh)) : List NodeId → Except String (List Mesh)
  | [] => .ok []
  | u :: rest =>
      match store.lookup u with
      | none => .error ("missing upstream output " ++ toString u)
      | some mesh =>
          match gatherInputs store rest with
          | .error e => .error e
          | .ok tl => .ok (mesh :: tl)

/-- The pure part of the closure in `evaluate_mesh_graph` (mesh_eval.rs,
lines 32-48): node lookup, kind dispatch, upstream gathering, compute. -/
def meshComputeFor (Ω : NumOracle) (g : Graph) (n : NodeId) (params : NodeParams)
    (store : List (NodeId × Mesh)) : Except String Mesh :=
  match g.findNode n with
  | none => .error "missing node"
  | some node =>
      match builtinKindFromName node.name with
      | none => .error ("unknown node type " ++ node.name)
      | some kind =>
          match gatherInputs store (g.upstreamNodes n) with
          | .error m => .error m
          | .ok inputs => computeMeshNode Ω kind params inputs

/-- The closure passed to the engine by `evaluate_mesh_graph`: on success it
stores the computed mesh under the node's id, on failure it leaves the
outputs map unchanged. -/
def meshClosure (Ω : NumOracle) (g : Graph) (n : NodeId) (params : NodeParams)
    (store : List (NodeId × Mesh)) : List (NodeId × Mesh) × Option String :=
  match meshComputeFor Ω g n params store with
  | .ok mesh => ((n, mesh) :: store, none)
  | .error m => (store, some m)

/-- `evaluate_mesh_graph` (mesh_eval.rs, lines 26-56): run the engine with
the mesh closure, then hand back the report together with whatever the
outputs map holds for the target node (the source reads the map
unconditionally — it does not consult `output_valid`). -/
def evaluateMeshGraph (Ω : NumOracle) (clock : NodeId → Q) (g : Graph)
    (output : NodeId) (st : MeshEvalState) :
    Except GraphError (MeshEvalResult × MeshEvalState) :=
  match evaluateFromWith g output clock (meshClosure Ω g) st.eval st.outputs with
  | .error e => .error e
  | .ok (report, ec, store) => .ok (⟨report, store.lookup output⟩, ⟨ec, store⟩)

instance {ε α : Type} [DecidableEq ε] [DecidableEq α] : DecidableEq (Except ε α) :=
  fun a b =>
    match a, b with
    | .ok x, .ok y => if h : x = y then isTrue (by rw [h]) else isFalse (by simp [h])
    | .error x, .error y => if h : x = y then isTrue (by rw [h]) else isFalse (by simp [h])
    | .ok _, .error _ => isFalse (by simp)
    | .error _, .ok _ => isFalse (by simp)

/-! ## Application evaluation driver (app/src/app/eval.rs) -/

/-- `OutputState` from `app.rs`. -/
inductive OutputState where
  | ok
  | missing
  | multiple
deriving DecidableEq, Repr

/-- The slice of `GraphoApp` state that `evaluate_graph` touches.  The
viewport renderer and the `pending_scene` fallback slot both hold "the scene
currently handed to display"; they are folded into the single `scene` field
(`none` models a cleared scene / cleared pending slot). -/
structure AppModel where
  graph : Graph
  evalState : MeshEvalState
  scene : Option Mesh
  lastOutputState : OutputState
  lastReport : Option EvalReport
deriving Repr

/-- `GraphoApp::evaluate_graph` (app/src/app/eval.rs, lines 37-111): count
the nodes named "Output"; zero or several of them clear the scene and skip
the evaluation pass; exactly one runs `evaluate_mesh_graph` and displays the
payload only when present and valid. -/
def evaluateGraph (Ω : NumOracle) (clock : NodeId → Q) (app : AppModel) : AppModel :=
  let outputs := (app.graph.nodes.filter (fun nd => nd.name = "Output")).map (fun nd => nd.id)
  match outputs with
  | [] => { app with lastOutputState := .missing, scene := none }
  | [n] =>
      let app := { app with lastOutputState := .ok }
      match evaluateMeshGraph Ω clock app.graph n app.evalState with
      | .ok res =>
          let scene := match res.1.output with
            | some mesh => some mesh
            | none => none
          { app with evalState := res.2, lastReport := some res.1.report,
                     scene := if res.1.report.outputValid then scene else none }
      | .error _ => app
  | _ => { app with lastOutputState := .multiple, scene := none }

/-! ## Concrete fixtures used by witnesses and counterexamples -/

/-- Concrete app state with no "Output" node (a lone Box node). -/
def appNoOutput : AppModel :=
  { graph := { nodes := [⟨1, "Box", "Sources", [], [10], ⟨[]⟩⟩],
               pins := [⟨10, 1, .output, .mesh, "out"⟩], links := [], nextId := 20 },
    evalState := ⟨⟨[]⟩, []⟩, scene := some (makeBox ⟨1, 1, 1⟩),
    lastOutputState := .ok, lastReport := none }

/-- Concrete app state with two "Output" nodes. -/
def appTwoOutputs : AppModel :=
  { graph := { nodes := [⟨1, "Output", "Outputs", [10], [], ⟨[]⟩⟩,
                         ⟨2, "Output", "Outputs", [11], [], ⟨[]⟩⟩],
               pins := [⟨10, 1, .input, .mesh, "in"⟩, ⟨11, 2, .input, .mesh, "in"⟩],
               links := [], nextId := 20 },
    evalState := ⟨⟨[]⟩, []⟩, scene := some (makeBox ⟨1, 1, 1⟩),
    lastOutputState := .ok, lastReport := none }


/-- The index list that claim C10 as written describes: each input's indices
offset by the exact total vertex count of the preceding meshes (no
wrap-around). -/
def mergeIndicesExact : List Mesh → ℕ → List ℕ
  | [], _ => []
  | m :: rest, off =>
      m.indices.map (fun i => i + off) ++ mergeIndicesExact rest (off + m.positions.length)

/-- The same offsetting with the `u32` wrap-around the source performs. -/
def mergeIndicesWrapped : List Mesh → ℕ → List ℕ
  | [], _ => []
  | m :: rest, off =>
      m.indices.map (fun i => (i + off) % Mesh.u32Mod) ++
        mergeIndicesWrapped rest ((off + m.positions.length) % Mesh.u32Mod)

/-- Final value of the running `u32` vertex offset. -/
def wrapOffset : List Mesh → ℕ → ℕ
  | [], off => off
  | m :: rest, off => wrapOffset rest ((off + m.positions.length) % Mesh.u32Mod)

/-- Claim C10 exactly as stated (with unwrapped offsets). -/
def mergeSpecStated (ms : List Mesh) : Prop :=
  (Mesh.merge ms).positions = ms.flatMap Mesh.positions ∧
  (Mesh.merge ms).indices = mergeIndicesExact ms 0 ∧
  ((∀ m ∈ ms, ∀ i ∈ m.indices, i < m.positions.length) →
     ∀ i ∈ (Mesh.merge ms).indices, i < (Mesh.merge ms).positions.length) ∧
  (Mesh.merge ms).normals = (if ms.all (fun m => m.normals.isSome) then
      some (ms.flatMap (fun m => m.normals.getD [])) else none) ∧
  (Mesh.merge ms).uvs = (if ms.all (fun m => m.uvs.isSome) then
      some (ms.flatMap (fun m => m.uvs.getD [])) else none)


/-- Node-level dependency edge: some link runs from an output pin owned by
`a` to an input pin owned by `b` (`a` feeds `b`). -/
def Graph.feeds (g : Graph) (a b : NodeId) : Prop :=
  ∃ l ∈ g.links, g.pinOwner l.fromPin = some a ∧ g.pinOwner l.toPin = some b

/-- Reachability along the node-level dependency edges. -/
def Graph.Reaches (g : Graph) (a b : NodeId) : Prop :=
  Relation.ReflTransGen (Graph.feeds g) a b

/-- Strip the recorded durations out of an in-flight pass state. -/
def PassSt.stripDur {σ : Type} (st : PassSt σ) : PassSt σ :=
  { st with reports := st.reports.map (fun p => (p.1, ⟨0, p.2.cached⟩)) }

/-- Strip the recorded wall-clock durations out of a report (zero them),
leaving every control-flow-derived field intact. -/
def EvalReport.stripDurations (r : EvalReport) : EvalReport :=
  { r with nodes := r.nodes.map (fun p => (p.1, ⟨0, p.2.cached⟩)) }

/-- Chain fixture `Merge(1) → Transform(2) → Output(3)`: the Merge node has
no connected inputs, so its compute fails. -/
def gChain : Graph :=
  { nodes := [⟨1, "Merge", "Operators", [10, 11], [12], ⟨[]⟩⟩,
              ⟨2, "Transform", "Operators", [13], [14], ⟨[]⟩⟩,
              ⟨3, "Output", "Outputs", [15], [], ⟨[]⟩⟩],
    pins := [⟨10, 1, .input, .mesh, "a"⟩, ⟨11, 1, .input, .mesh, "b"⟩,
             ⟨12, 1, .output, .mesh, "out"⟩, ⟨13, 2, .input, .mesh, "in"⟩,
             ⟨14, 2, .output, .mesh, "out"⟩, ⟨15, 3, .input, .mesh, "in"⟩],
    links := [⟨100, 12, 13⟩, ⟨101, 14, 15⟩], nextId := 200 }

/-- Fixture `Box(1) → Merge(2)` with the link present. -/
def gBoxMerge : Graph :=
  { nodes := [⟨1, "Box", "Sources", [], [10], ⟨[]⟩⟩,
              ⟨2, "Merge", "Operators", [11, 12], [13], ⟨[]⟩⟩],
    pins := [⟨10, 1, .output, .mesh, "out"⟩, ⟨11, 2, .input, .mesh, "a"⟩,
             ⟨12, 2, .input, .mesh, "b"⟩, ⟨13, 2, .output, .mesh, "out"⟩],
    links := [⟨100, 10, 11⟩], nextId := 200 }

/-- `gBoxMerge` after the single link has been removed
(`remove_link_between` on pins 10 → 11). -/
def gBoxMergeUnlinked : Graph := Graph.removeLinkBetween gBoxMerge 10 11

/-- The evaluation state left behind by a successful pass over `gBoxMerge`
with target `Merge(2)` from a fresh state. -/
def stAfterBoxMerge : MeshEvalState :=
  ((evaluateMeshGraph testOracle (fun _ => 0) gBoxMerge 2 ⟨⟨[]⟩, []⟩).toOption.map
    (fun res => res.2)).getD ⟨⟨[]⟩, []⟩

/-- Single-node fixture holding one `Merge` node with no inputs. -/
def gMergeOnly : Graph :=
  { nodes := [⟨1, "Merge", "Operators", [10, 11], [12], ⟨[]⟩⟩],
    pins := [⟨10, 1, .input, .mesh, "a"⟩, ⟨11, 1, .input, .mesh, "b"⟩,
             ⟨12, 1, .output, .mesh, "out"⟩],
    links := [], nextId := 200 }

/-- Two-node cycle-attempt fixture: `X(1) → Y(2)` already linked; pins `14`
(output of Y) and `15` (spare input of X) are the candidate back edge. -/
def gTwoLinked : Graph :=
  { nodes := [⟨1, "Transform", "Operators", [10, 15], [11], ⟨[]⟩⟩,
              ⟨2, "Transform", "Operators", [12], [14], ⟨[]⟩⟩],
    pins := [⟨10, 1, .input, .mesh, "in"⟩, ⟨11, 1, .output, .mesh, "out"⟩,
             ⟨12, 2, .input, .mesh, "in"⟩, ⟨14, 2, .output, .mesh, "out"⟩,
             ⟨15, 1, .input, .mesh, "in2"⟩],
    links := [⟨100, 11, 12⟩], nextId := 200 }

/-! ## Claim C6: per-kind input arity validation -/

/-- C6: each node kind validates its own input arity and fails with a
descriptive error rather than crashing: `compute_mesh_node` for Merge with an
empty input list returns an error, and for Transform, Copy to Points and
Output with a missing required input it returns an error carrying a
descriptive message.  (`computeMeshNode` is a total function into
`Except String Mesh`, so no input can make it panic.) -/
theorem c6_arity_errors (Ω : NumOracle) (params : NodeParams) :
    computeMeshNode Ω .merge params [] = .error "Merge requires at least one mesh input" ∧
    computeMeshNode Ω .transform params [] = .error "Transform requires a mesh input" ∧
    computeMeshNode Ω .copyToPoints params [] = .error "Copy to Points requires a source mesh" ∧
    (∀ m : Mesh, computeMeshNode Ω .copyToPoints params [m] =
      .error "Copy to Points requires a template mesh") ∧
    computeMeshNode Ω .output params [] = .error "Output requires a mesh input" :=
  ⟨rfl, rfl, rfl, fun _ => rfl, rfl⟩

/-! ## Claim C7: parameter defaults at compute time -/

/-- C7 counterexample: a key whose stored value has the wrong variant type is
NOT always ignored in favor of the default — `param_float` accepts an `Int`
value for a float-typed key and converts it, so storing `Int 5` under
`radius` changes the Sphere output (exhibited with the concrete test oracle,
whose sphere depends on the radius exactly as the real one does). -/
theorem c7_wrong_variant_counterexample :
    computeMeshNode testOracle .sphere ⟨[("radius", .int 5)]⟩ [] ≠
    computeMeshNode testOracle .sphere ⟨[]⟩ [] := by decide

/-- C7 (amended): missing parameter keys fall back to kind-specific defaults
at compute time — for every builtin kind and inputs, computing with an empty
parameter map equals computing with `default_params(kind)`.  A key whose
stored value has a variant its reader does not accept is ignored in favor of
the default, where the vec2/vec3/int/bool readers accept exactly their own
variant while the float reader accepts Float and also Int (which it converts
to float rather than ignoring). -/
theorem c7_params_defaults_amended (Ω : NumOracle) (kind : BuiltinNodeKind)
    (inputs : List Mesh) (key : String) (v : ParamValue)
    (d2 : V2) (d3 : V3) (df : Q) (di : ℤ) (db : Bool) :
    (computeMeshNode Ω kind ⟨[]⟩ inputs = computeMeshNode Ω kind (defaultParams kind) inputs) ∧
    ((∀ w, v ≠ .vec2 w) → paramVec2 ⟨[(key, v)]⟩ key d2 = d2) ∧
    ((∀ w, v ≠ .vec3 w) → paramVec3 ⟨[(key, v)]⟩ key d3 = d3) ∧
    ((∀ w, v ≠ .int w) → paramInt ⟨[(key, v)]⟩ key di = di) ∧
    ((∀ w, v ≠ .bool w) → paramBool ⟨[(key, v)]⟩ key db = db) ∧
    ((∀ w, v ≠ .float w) → (∀ w, v ≠ .int w) → paramFloat ⟨[(key, v)]⟩ key df = df) ∧
    (∀ n : ℤ, paramFloat ⟨[(key, .int n)]⟩ key df = Q.ofInt n) := by
  refine ⟨by cases kind <;> rfl, ?_, ?_, ?_, ?_, ?_, ?_⟩
  · intro h
    cases v with
    | vec2 w => exact absurd rfl (h w)
    | float w => simp [paramVec2, List.lookup]
    | int w => simp [paramVec2, List.lookup]
    | bool w => simp [paramVec2, List.lookup]
    | vec3 w => simp [paramVec2, List.lookup]
    | str w => simp [paramVec2, List.lookup]
  · intro h
    cases v with
    | vec3 w => exact absurd rfl (h w)
    | float w => simp [paramVec3, List.lookup]
    | int w => simp [paramVec3, List.lookup]
    | bool w => simp [paramVec3, List.lookup]
    | vec2 w => simp [paramVec3, List.lookup]
    | str w => simp [paramVec3, List.lookup]
  · intro h
    cases v with
    | int w => exact absurd rfl (h w)
    | float w => simp [paramInt, List.lookup]
    | vec3 w => simp [paramInt, List.lookup]
    | bool w => simp [paramInt, List.lookup]
    | vec2 w => simp [paramInt, List.lookup]
    | str w => simp [paramInt, List.lookup]
  · intro h
    cases v with
    | bool w => exact absurd rfl (h w)
    | float w => simp [paramBool, List.lookup]
    | vec3 w => simp [paramBool, List.lookup]
    | int w => simp [paramBool, List.lookup]
    | vec2 w => simp [paramBool, List.lookup]
    | str w => simp [paramBool, List.lookup]
  · intro hf hi
    cases v with
    | float w => exact absurd rfl (hf w)
    | int w => exact absurd rfl (hi w)
    | vec3 w => simp [paramFloat, List.lookup]
    | bool w => simp [paramFloat, List.lookup]
    | vec2 w => simp [paramFloat, List.lookup]
    | str w => simp [paramFloat, List.lookup]
  · intro n
    simp [paramFloat, List.lookup]

/-- C7 witness: the amended theorem applied at concrete inputs, every
hypothesis discharged. -/
theorem c7_witness :
    (computeMeshNode testOracle .box ⟨[]⟩ [] =
      computeMeshNode testOracle .box (defaultParams .box) []) ∧
    paramVec2 ⟨[("k", .str "x")]⟩ "k" ⟨7, 8⟩ = ⟨7, 8⟩ ∧
    paramVec3 ⟨[("k", .str "x")]⟩ "k" ⟨7, 8, 9⟩ = ⟨7, 8, 9⟩ ∧
    paramInt ⟨[("k", .str "x")]⟩ "k" 5 = 5 ∧
    paramBool ⟨[("k", .str "x")]⟩ "k" true = true ∧
    paramFloat ⟨[("k", .str "x")]⟩ "k" 4 = 4 ∧
    paramFloat ⟨[("k", .int 9)]⟩ "k" 4 = Q.ofInt 9 := by
  obtain ⟨h1, h2, h3, h4, h5, h6, h7⟩ :=
    c7_params_defaults_amended testOracle .box [] "k" (.str "x") ⟨7, 8⟩ ⟨7, 8, 9⟩ 4 5 true
  exact ⟨h1, h2 (fun w h => by cases h), h3 (fun w h => by cases h),
         h4 (fun w h => by cases h), h5 (fun w h => by cases h),
         h6 (fun w h => by cases h) (fun w h => by cases h),
         c7_params_defaults_amended testOracle .box [] "k" (.int 9) ⟨7, 8⟩ ⟨7, 8, 9⟩ 4 5 true |>.2.2.2.2.2.2 9⟩

/-! ## Claim C9: box/transform bounds scenario -/

/-- C9: computing a Box node with size [1,1,1] and feeding it through a
Transform node with scale [2,2,2] yields a mesh whose bounds are
min = [-1,-1,-1], max = [1,1,1]; with scale [3,3,3] the bounds become
±[1.5, 1.5, 1.5].  The hypothesis pins the single fact used about the
oracle: `from_euler` of a zero rotation is the identity quaternion. -/
theorem c9_box_transform_bounds (Ω : NumOracle)
    (hq : Ω.quatFromEulerXYZDeg ⟨0, 0, 0⟩ = Quat.one) :
    ((computeMeshNode Ω .box ⟨[("size", .vec3 ⟨1, 1, 1⟩)]⟩ []).bind (fun bx =>
       computeMeshNode Ω .transform ⟨[("scale", .vec3 ⟨2, 2, 2⟩)]⟩ [bx])).map Mesh.bounds
      = .ok (some ⟨⟨-1, -1, -1⟩, ⟨1, 1, 1⟩⟩) ∧
    ((computeMeshNode Ω .box ⟨[("size", .vec3 ⟨1, 1, 1⟩)]⟩ []).bind (fun bx =>
       computeMeshNode Ω .transform ⟨[("scale", .vec3 ⟨3, 3, 3⟩)]⟩ [bx])).map Mesh.bounds
      = .ok (some ⟨⟨-(3/2), -(3/2), -(3/2)⟩, ⟨3/2, 3/2, 3/2⟩⟩) := by
  have hcs : ("center" == "size") = false := rfl
  have hss : ("size" == "size") = true := rfl
  have hbox : computeMeshNode Ω .box ⟨[("size", .vec3 ⟨1, 1, 1⟩)]⟩ [] =
      Except.ok (Mesh.computeNormals Ω (makeBox ⟨1, 1, 1⟩)) := by
    simp +decide only [computeMeshNode, paramVec3, List.lookup, hcs, hss,
      if_true, if_false, ite_true, ite_false]
  have htr2 : ∀ bx : Mesh, computeMeshNode Ω .transform ⟨[("scale", .vec3 ⟨2, 2, 2⟩)]⟩ [bx] =
      Except.ok (Mesh.transform Ω
        (trMatrix Ω ⟨0, 0, 0⟩ ⟨0, 0, 0⟩ ⟨2, 2, 2⟩ ⟨0, 0, 0⟩) bx) := fun _ => rfl
  have htr3 : ∀ bx : Mesh, computeMeshNode Ω .transform ⟨[("scale", .vec3 ⟨3, 3, 3⟩)]⟩ [bx] =
      Except.ok (Mesh.transform Ω
        (trMatrix Ω ⟨0, 0, 0⟩ ⟨0, 0, 0⟩ ⟨3, 3, 3⟩ ⟨0, 0, 0⟩) bx) := fun _ => rfl
  have hM2 : trMatrix Ω ⟨0, 0, 0⟩ ⟨0, 0, 0⟩ ⟨2, 2, 2⟩ ⟨0, 0, 0⟩ =
      ⟨⟨2, 0, 0, 0⟩, ⟨0, 2, 0, 0⟩, ⟨0, 0, 2, 0⟩, ⟨0, 0, 0, 1⟩⟩ := by
    unfold trMatrix
    rw [hq]
    decide
  have hM3 : trMatrix Ω ⟨0, 0, 0⟩ ⟨0, 0, 0⟩ ⟨3, 3, 3⟩ ⟨0, 0, 0⟩ =
      ⟨⟨3, 0, 0, 0⟩, ⟨0, 3, 0, 0⟩, ⟨0, 0, 3, 0⟩, ⟨0, 0, 0, 1⟩⟩ := by
    unfold trMatrix
    rw [hq]
    decide
  constructor
  · rw [hbox]
    show (computeMeshNode Ω .transform ⟨[("scale", .vec3 ⟨2, 2, 2⟩)]⟩
      [Mesh.computeNormals Ω (makeBox ⟨1, 1, 1⟩)]).map Mesh.bounds = _
    rw [htr2, hM2]
    show Except.ok (Mesh.aabbOf (((Mesh.computeNormals Ω (makeBox ⟨1, 1, 1⟩)).positions).map
      (Mat4.transformPoint3 ⟨⟨2, 0, 0, 0⟩, ⟨0, 2, 0, 0⟩, ⟨0, 0, 2, 0⟩, ⟨0, 0, 0, 1⟩⟩))) = _
    rfl
  · rw [hbox]
    show (computeMeshNode Ω .transform ⟨[("scale", .vec3 ⟨3, 3, 3⟩)]⟩
      [Mesh.computeNormals Ω (makeBox ⟨1, 1, 1⟩)]).map Mesh.bounds = _
    rw [htr3, hM3]
    show Except.ok (Mesh.aabbOf (((Mesh.computeNormals Ω (makeBox ⟨1, 1, 1⟩)).positions).map
      (Mat4.transformPoint3 ⟨⟨3, 0, 0, 0⟩, ⟨0, 3, 0, 0⟩, ⟨0, 0, 3, 0⟩, ⟨0, 0, 0, 1⟩⟩))) = _
    rfl

/-- C9 witness: the theorem applied at the concrete test oracle (whose
`from_euler` returns the identity, as the real one does at zero angles). -/
theorem c9_witness :
    ((computeMeshNode testOracle .box ⟨[("size", .vec3 ⟨1, 1, 1⟩)]⟩ []).bind (fun bx =>
       computeMeshNode testOracle .transform ⟨[("scale", .vec3 ⟨2, 2, 2⟩)]⟩ [bx])).map Mesh.bounds
      = .ok (some ⟨⟨-1, -1, -1⟩, ⟨1, 1, 1⟩⟩) ∧
    ((computeMeshNode testOracle .box ⟨[("size", .vec3 ⟨1, 1, 1⟩)]⟩ []).bind (fun bx =>
       computeMeshNode testOracle .transform ⟨[("scale", .vec3 ⟨3, 3, 3⟩)]⟩ [bx])).map Mesh.bounds
      = .ok (some ⟨⟨-(3/2), -(3/2), -(3/2)⟩, ⟨3/2, 3/2, 3/2⟩⟩) :=
  c9_box_transform_bounds testOracle rfl

/-! ## Claim C8: output-role counting in the evaluation driver -/

/-- C8: `evaluate_graph` counts the nodes whose name equals "Output"; when
there are zero, or more than one, it records the condition, clears the scene,
and skips the evaluation pass (the evaluation state is untouched) — the
function is total, so neither case can crash. -/
theorem c8_output_count_guard (Ω : NumOracle) (clock : NodeId → Q) (app : AppModel) :
    ((app.graph.nodes.filter (fun nd => nd.name = "Output")) = [] →
      evaluateGraph Ω clock app = { app with lastOutputState := .missing, scene := none }) ∧
    (2 ≤ (app.graph.nodes.filter (fun nd => nd.name = "Output")).length →
      evaluateGraph Ω clock app = { app with lastOutputState := .multiple, scene := none }) := by
  constructor
  · intro h
    unfold evaluateGraph
    rw [h]
    rfl
  · intro h
    rcases hl : app.graph.nodes.filter (fun nd => nd.name = "Output") with _ | ⟨a, _ | ⟨b, t⟩⟩
    · rw [hl] at h
      exact absurd h (by simp)
    · rw [hl] at h
      exact absurd h (by simp)
    · unfold evaluateGraph
      rw [hl]
      rfl


/-- C8 witness: the theorem applied to a concrete output-less app and a
concrete two-outputs app. -/
theorem c8_witness :
    evaluateGraph testOracle (fun _ => 0) appNoOutput =
      { appNoOutput with lastOutputState := .missing, scene := none } ∧
    evaluateGraph testOracle (fun _ => 0) appTwoOutputs =
      { appTwoOutputs with lastOutputState := .multiple, scene := none } :=
  ⟨(c8_output_count_guard testOracle (fun _ => 0) appNoOutput).1 rfl,
   (c8_output_count_guard testOracle (fun _ => 0) appTwoOutputs).2 (by decide)⟩

/-! ## Claim C10: Mesh::merge characterization -/

/-- Characterization of the `Mesh::merge` fold: appends the concatenated
positions and the wrap-offset indices to any accumulator. -/
theorem merge_fold_char (ms : List Mesh) (P : List V3) (I : List ℕ) (off : ℕ) :
    ms.foldl (fun (acc : List V3 × List ℕ × ℕ) m =>
        (acc.1 ++ m.positions,
         acc.2.1 ++ m.indices.map (fun i => (i + acc.2.2) % Mesh.u32Mod),
         (acc.2.2 + m.positions.length) % Mesh.u32Mod)) (P, I, off) =
      (P ++ ms.flatMap Mesh.positions, I ++ mergeIndicesWrapped ms off, wrapOffset ms off) := by
  induction ms generalizing P I off with
  | nil => simp [mergeIndicesWrapped, wrapOffset]
  | cons m rest ih =>
      simp only [List.foldl_cons, List.flatMap_cons, mergeIndicesWrapped, wrapOffset, ih,
        List.append_assoc]

theorem merge_positions_eq (ms : List Mesh) :
    (Mesh.merge ms).positions = ms.flatMap Mesh.positions := by
  show (ms.foldl _ ([], [], 0)).1 = _
  rw [merge_fold_char]
  simp

theorem merge_indices_eq (ms : List Mesh) :
    (Mesh.merge ms).indices = mergeIndicesWrapped ms 0 := by
  show (ms.foldl _ ([], [], 0)).2.1 = _
  rw [merge_fold_char]
  simp

/-- When every index is in range for its own mesh and the offsets stay below
`2^32`, the wrap-around never fires. -/
theorem wrapped_eq_exact (ms : List Mesh) (off : ℕ)
    (hin : ∀ m ∈ ms, ∀ i ∈ m.indices, i < m.positions.length)
    (hlt : off + (ms.flatMap Mesh.positions).length < Mesh.u32Mod) :
    mergeIndicesWrapped ms off = mergeIndicesExact ms off := by
  induction ms generalizing off with
  | nil => rfl
  | cons m rest ih =>
      simp only [List.flatMap_cons, List.length_append] at hlt
      have hoff : off + m.positions.length < Mesh.u32Mod := by omega
      simp only [mergeIndicesWrapped, mergeIndicesExact]
      have h1 : List.map (fun i => (i + off) % Mesh.u32Mod) m.indices =
          List.map (fun i => i + off) m.indices := by
        apply List.map_congr_left
        intro i hi
        have : i < m.positions.length := hin m (List.mem_cons_self m rest) i hi
        exact Nat.mod_eq_of_lt (by omega)
      rw [h1, Nat.mod_eq_of_lt hoff,
        ih (off + m.positions.length)
          (fun m2 hm2 => hin m2 (List.mem_cons_of_mem _ hm2)) (by omega)]

/-- Elements of the exact-offset index list are bounded by the offset plus
the total vertex count, given in-range inputs. -/
theorem exact_mem_lt (ms : List Mesh) (off : ℕ)
    (hin : ∀ m ∈ ms, ∀ i ∈ m.indices, i < m.positions.length) :
    ∀ x ∈ mergeIndicesExact ms off, x < off + (ms.flatMap Mesh.positions).length := by
  induction ms generalizing off with
  | nil => intro x hx; cases hx
  | cons m rest ih =>
      intro x hx
      simp only [mergeIndicesExact, List.mem_append, List.mem_map] at hx
      simp only [List.flatMap_cons, List.length_append]
      rcases hx with ⟨i, hi, rfl⟩ | hx
      · have : i < m.positions.length := hin m (List.mem_cons_self m rest) i hi
        omega
      · have := ih (off + m.positions.length)
          (fun m2 hm2 => hin m2 (List.mem_cons_of_mem _ hm2)) x hx
        omega

/-- Elements of the wrapped index list are below the `u32` modulus. -/
theorem wrapped_mem_lt_mod (ms : List Mesh) (off : ℕ) :
    ∀ x ∈ mergeIndicesWrapped ms off, x < Mesh.u32Mod := by
  induction ms generalizing off with
  | nil => intro x hx; cases hx
  | cons m rest ih =>
      intro x hx
      simp only [mergeIndicesWrapped, List.mem_append, List.mem_map] at hx
      rcases hx with ⟨i, _, rfl⟩ | hx
      · exact Nat.mod_lt _ (by decide)
      · exact ih _ x hx

/-- C10 counterexample: the claim as written fails on the concrete input
`[⟨1 vertex, no indices⟩, ⟨0 vertices, index 4294967295⟩]` — the merged
index is `(4294967295 + 1) mod 2^32 = 0` in `u32` arithmetic, not the
`4294967296` the unwrapped offset description demands. -/
theorem c10_merge_counterexample :
    ¬ mergeSpecStated [⟨[V3.zero], [], none, none⟩, ⟨[], [4294967295], none, none⟩] := by
  intro h
  exact absurd h.2.1 (by decide)

/-- C10 (amended): `Mesh::merge` returns the concatenated positions; the
indices are the inputs' indices each offset by the running vertex count of
the preceding meshes in `u32` arithmetic (reduced modulo `2^32`), which
coincides with the exact offsets whenever every input index is in range for
its own mesh and the total vertex count stays below `2^32`; every merged
index stays in range whenever every input index was in range; and normals
(resp. uvs) are present iff every input has them, as the concatenation in
order. -/
theorem c10_merge_amended (ms : List Mesh) :
    (Mesh.merge ms).positions = ms.flatMap Mesh.positions ∧
    (Mesh.merge ms).indices = mergeIndicesWrapped ms 0 ∧
    ((∀ m ∈ ms, ∀ i ∈ m.indices, i < m.positions.length) →
      (ms.flatMap Mesh.positions).length < Mesh.u32Mod →
      (Mesh.merge ms).indices = mergeIndicesExact ms 0) ∧
    ((∀ m ∈ ms, ∀ i ∈ m.indices, i < m.positions.length) →
      ∀ i ∈ (Mesh.merge ms).indices, i < (Mesh.merge ms).positions.length) ∧
    (Mesh.merge ms).normals = (if ms.all (fun m => m.normals.isSome) then
        some (ms.flatMap (fun m => m.normals.getD [])) else none) ∧
    (Mesh.merge ms).uvs = (if ms.all (fun m => m.uvs.isSome) then
        some (ms.flatMap (fun m => m.uvs.getD [])) else none) := by
  refine ⟨merge_positions_eq ms, merge_indices_eq ms, ?_, ?_, rfl, rfl⟩
  · intro hin hlt
    rw [merge_indices_eq]
    exact wrapped_eq_exact ms 0 hin (by omega)
  · intro hin i hi
    rw [merge_indices_eq] at hi
    rw [merge_positions_eq]
    by_cases hT : (ms.flatMap Mesh.positions).length < Mesh.u32Mod
    · rw [wrapped_eq_exact ms 0 hin (by omega)] at hi
      have := exact_mem_lt ms 0 hin i hi
      omega
    · have := wrapped_mem_lt_mod ms 0 i hi
      omega

/-- C10 witness: the amended theorem applied to two concrete meshes, with
every hypothesis discharged by evaluation. -/
theorem c10_witness :
    (Mesh.merge [⟨[⟨0, 0, 0⟩, ⟨1, 0, 0⟩], [0, 1], some [⟨0, 1, 0⟩, ⟨0, 1, 0⟩], none⟩,
                 ⟨[⟨2, 0, 0⟩], [0], some [⟨1, 0, 0⟩], some [⟨0, 0⟩]⟩]).positions =
      [(⟨[⟨0, 0, 0⟩, ⟨1, 0, 0⟩], [0, 1], some [⟨0, 1, 0⟩, ⟨0, 1, 0⟩], none⟩ : Mesh),
       ⟨[⟨2, 0, 0⟩], [0], some [⟨1, 0, 0⟩], some [⟨0, 0⟩]⟩].flatMap Mesh.positions ∧
    (Mesh.merge [⟨[⟨0, 0, 0⟩, ⟨1, 0, 0⟩], [0, 1], some [⟨0, 1, 0⟩, ⟨0, 1, 0⟩], none⟩,
                 ⟨[⟨2, 0, 0⟩], [0], some [⟨1, 0, 0⟩], some [⟨0, 0⟩]⟩]).indices =
      mergeIndicesExact [⟨[⟨0, 0, 0⟩, ⟨1, 0, 0⟩], [0, 1], some [⟨0, 1, 0⟩, ⟨0, 1, 0⟩], none⟩,
                         ⟨[⟨2, 0, 0⟩], [0], some [⟨1, 0, 0⟩], some [⟨0, 0⟩]⟩] 0 ∧
    (∀ i ∈ (Mesh.merge [⟨[⟨0, 0, 0⟩, ⟨1, 0, 0⟩], [0, 1], some [⟨0, 1, 0⟩, ⟨0, 1, 0⟩], none⟩,
                        ⟨[⟨2, 0, 0⟩], [0], some [⟨1, 0, 0⟩], some [⟨0, 0⟩]⟩]).indices,
       i < (Mesh.merge [⟨[⟨0, 0, 0⟩, ⟨1, 0, 0⟩], [0, 1], some [⟨0, 1, 0⟩, ⟨0, 1, 0⟩], none⟩,
                        ⟨[⟨2, 0, 0⟩], [0], some [⟨1, 0, 0⟩], some [⟨0, 0⟩]⟩]).positions.length) := by
  obtain ⟨h1, h2, h3, h4, h5, h6⟩ :=
    c10_merge_amended [⟨[⟨0, 0, 0⟩, ⟨1, 0, 0⟩], [0, 1], some [⟨0, 1, 0⟩, ⟨0, 1, 0⟩], none⟩,
                       ⟨[⟨2, 0, 0⟩], [0], some [⟨1, 0, 0⟩], some [⟨0, 0⟩]⟩]
  exact ⟨h1, h3 (by decide) (by decide), h4 (by decide)⟩

/-! ## Claim C5: cycle rejection and no partial edits -/
theorem mem_dedupFirstAux (x : NodeId) :
    ∀ (fuel : ℕ) (l : List NodeId), l.length ≤ fuel →
      (x ∈ dedupFirstAux fuel l ↔ x ∈ l) := by
  intro fuel
  induction fuel with
  | zero =>
      intro l hl
      rw [Nat.le_zero, List.length_eq_zero] at hl
      subst hl
      rfl
  | succ f ih =>
      intro l hl
      cases l with
      | nil => rfl
      | cons a rest =>
          simp only [dedupFirstAux, List.mem_cons]
          rw [ih (rest.filter (fun b => b ≠ a))
            (le_trans (List.length_filter_le _ _) (Nat.le_of_succ_le_succ hl))]
          simp only [List.mem_filter, decide_eq_true_eq]
          constructor
          · rintro (rfl | ⟨hx, _⟩)
            · exact Or.inl rfl
            · exact Or.inr hx
          · rintro (rfl | hx)
            · exact Or.inl rfl
            · by_cases hxa : x = a
              · exact Or.inl hxa
              · exact Or.inr ⟨hx, hxa⟩

theorem mem_dedupFirst (x : NodeId) (l : List NodeId) : x ∈ dedupFirst l ↔ x ∈ l :=
  mem_dedupFirstAux x l.length l le_rfl

theorem mem_succs (g : Graph) (a b : NodeId) : b ∈ g.succs a ↔ g.feeds a b := by
  simp only [Graph.succs, Graph.feeds, List.mem_filterMap]
  constructor
  · rintro ⟨l, hl, hsome⟩
    rcases hf : g.pinOwner l.fromPin with _ | fo
    · rw [hf] at hsome
      cases hsome
    · rcases ht : g.pinOwner l.toPin with _ | to2
      · rw [hf, ht] at hsome
        cases hsome
      · rw [hf, ht] at hsome
        dsimp only at hsome
        by_cases hfo : fo = a
        · rw [if_pos hfo] at hsome
          cases hsome
          exact ⟨l, hl, by rw [hf, hfo], ht⟩
        · rw [if_neg hfo] at hsome
          cases hsome
  · rintro ⟨l, hl, hfrom, hto⟩
    refine ⟨l, hl, ?_⟩
    rw [hfrom, hto]
    dsimp only
    rw [if_pos rfl]

theorem mem_reachStep (g : Graph) (s : List NodeId) (x : NodeId) :
    x ∈ g.reachStep s ↔ x ∈ s ∨ ∃ a ∈ s, g.feeds a x := by
  simp only [Graph.reachStep, mem_dedupFirst, List.mem_append, List.mem_flatMap, mem_succs]

theorem subset_reachStep (g : Graph) (s : List NodeId) : s ⊆ g.reachStep s := by
  intro x hx
  rw [mem_reachStep]
  exact Or.inl hx

theorem iterate_reachStep_mono (g : Graph) (s : List NodeId) {k m : ℕ} (h : k ≤ m) :
    (g.reachStep)^[k] s ⊆ (g.reachStep)^[m] s := by
  induction m with
  | zero =>
      rw [Nat.le_zero] at h
      subst h
      exact fun x hx => hx
  | succ m ih =>
      rcases Nat.lt_or_ge k (m + 1) with hk | hk
      · intro x hx
        rw [Function.iterate_succ_apply']
        exact subset_reachStep g _ (ih (Nat.lt_succ_iff.mp hk) hx)
      · have hkm : k = m + 1 := le_antisymm h hk
        subst hkm
        exact fun x hx => hx

theorem iterate_subset_univ (g : Graph) (start : NodeId) (k : ℕ) :
    (g.reachStep)^[k] [start] ⊆ Graph.reachUniv g start := by
  induction k with
  | zero =>
      intro x hx
      cases hx with
      | head => exact List.mem_cons_self _ _
      | tail _ h => cases h
  | succ k ih =>
      intro x hx
      rw [Function.iterate_succ_apply', mem_reachStep] at hx
      rcases hx with hx | ⟨a, _, l, hl, _, hto⟩
      · exact ih hx
      · exact List.mem_cons_of_mem _ (List.mem_filterMap.mpr ⟨l, hl, hto⟩)

theorem closed_mem_of_reaches (g : Graph) (s : List NodeId) (start x : NodeId)
    (hstart : start ∈ s) (hclosed : ∀ a ∈ s, ∀ y, g.feeds a y → y ∈ s)
    (h : g.Reaches start x) : x ∈ s := by
  induction h with
  | refl => exact hstart
  | tail _ hstep ih => exact hclosed _ ih _ hstep

theorem exists_stable_iterate (g : Graph) (start : NodeId) :
    ∃ k, k ≤ g.links.length + 1 ∧
      g.reachStep ((g.reachStep)^[k] [start]) ⊆ (g.reachStep)^[k] [start] := by
  by_contra hcon
  push_neg at hcon
  have grow : ∀ j, j ≤ g.links.length + 1 →
      j + 1 ≤ ((g.reachStep)^[j] [start]).toFinset.card := by
    intro j
    induction j with
    | zero =>
        intro _
        simp
    | succ j ih =>
        intro hj
        have hj' : j ≤ g.links.length + 1 := Nat.le_of_succ_le hj
        obtain ⟨x, hx1, hx2⟩ := Set.not_subset.mp (hcon j hj')
        have hsub : ((g.reachStep)^[j] [start]).toFinset ⊆
            ((g.reachStep)^[j + 1] [start]).toFinset := by
          intro y hy
          rw [List.mem_toFinset] at hy ⊢
          exact iterate_reachStep_mono g _ (Nat.le_succ j) hy
        have hss : ((g.reachStep)^[j] [start]).toFinset ⊂
            ((g.reachStep)^[j + 1] [start]).toFinset := by
          rw [Finset.ssubset_iff_of_subset hsub]
          refine ⟨x, ?_, ?_⟩
          · rw [List.mem_toFinset, Function.iterate_succ_apply']
            exact hx1
          · rw [List.mem_toFinset]
            exact hx2
        have hcard := Finset.card_lt_card hss
        have ihj := ih hj'
        omega
  have hN := grow (g.links.length + 1) le_rfl
  have hbound : (((g.reachStep)^[g.links.length + 1] [start]).toFinset).card ≤
      g.links.length + 1 := by
    have h1 : (((g.reachStep)^[g.links.length + 1] [start]).toFinset) ⊆
        (Graph.reachUniv g start).toFinset := by
      intro y hy
      rw [List.mem_toFinset] at hy ⊢
      exact iterate_subset_univ g start _ hy
    calc (((g.reachStep)^[g.links.length + 1] [start]).toFinset).card
        ≤ (Graph.reachUniv g start).toFinset.card := Finset.card_le_card h1
      _ ≤ (Graph.reachUniv g start).length := List.toFinset_card_le _
      _ ≤ g.links.length + 1 := by
          have := List.length_filterMap_le (fun l => g.pinOwner l.toPin) g.links
          simp only [Graph.reachUniv, List.length_cons]
          omega
  omega

/-- Completeness of the saturation: every node reachable from `start` is in
`reachSet`. -/
theorem mem_reachSet_of_reaches (g : Graph) (start x : NodeId)
    (h : g.Reaches start x) : x ∈ g.reachSet start := by
  obtain ⟨k, hk, hstable⟩ := exists_stable_iterate g start
  have hstart : start ∈ (g.reachStep)^[k] [start] :=
    iterate_reachStep_mono g [start] (Nat.zero_le k) (List.mem_singleton.mpr rfl)
  have hclosed : ∀ a ∈ (g.reachStep)^[k] [start], ∀ y, g.feeds a y →
      y ∈ (g.reachStep)^[k] [start] := by
    intro a ha y hy
    exact hstable ((mem_reachStep g _ y).mpr (Or.inr ⟨a, ha, hy⟩))
  have hx := closed_mem_of_reaches g _ start x hstart hclosed h
  exact iterate_reachStep_mono g [start] hk hx

/-- C5: a call to `add_link` that would close a cycle in the node-level
dependency graph (the destination node already reaches the source node along
the feeds-into edges) and passes the earlier contract checks returns
`WouldCreateCycle` with the graph — hence the link set — unchanged; and more
generally every failing structural mutation (`add_link` with any error,
`set_param` on an unknown node) returns the graph unchanged. -/
theorem c5_addlink_cycle_guard (g : Graph) (f t : PinId) :
    (∀ pf pt, g.findPin f = some pf → g.findPin t = some pt →
      pf.pinType = pt.pinType → pf.kind = .output → pt.kind = .input →
      ¬ (g.links.any (fun l => l.toPin = t) = true) →
      g.Reaches pt.node pf.node →
      g.addLink f t = (g, .error .wouldCreateCycle)) ∧
    (∀ g2 e, g.addLink f t = (g2, .error e) → g2 = g) ∧
    (∀ n key v g2 e, g.setParam n key v = (g2, .error e) → g2 = g) := by
  refine ⟨?_, ?_, ?_⟩
  · intro pf pt hf ht htype hk1 hk2 hconn hreach
    have hcyc : Graph.wouldCreateCycle g pf.node pt.node = true := by
      unfold Graph.wouldCreateCycle
      exact decide_eq_true (mem_reachSet_of_reaches g pt.node pf.node hreach)
    unfold Graph.addLink
    rw [hf, ht]
    dsimp only
    rw [if_neg (by simp [htype]), if_neg (by simp [hk1, hk2]), if_neg (by simp at hconn ⊢; exact hconn),
      if_pos (by rw [hcyc])]
  · intro g2 e h
    unfold Graph.addLink at h
    rcases hf : g.findPin f with _ | pf
    · rw [hf] at h
      injection h with h1 h2
      exact h1.symm
    · rcases ht : g.findPin t with _ | pt
      · rw [hf, ht] at h
        injection h with h1 h2
        exact h1.symm
      · rw [hf, ht] at h
        dsimp only at h
        split_ifs at h <;>
          first
          | (injection h with h1 h2
             exact h1.symm)
          | (injection h with h1 h2
             cases h2)
  · intro n key v g2 e h
    unfold Graph.setParam at h
    split_ifs at h
    · injection h with h1 h2
      cases h2
    · injection h with h1 h2
      exact h1.symm

/-- C5 witness: on the concrete two-node graph `X(1) → Y(2)`, linking Y's
output pin back into X's spare input pin is rejected as `WouldCreateCycle`
and the graph is unchanged. -/
theorem c5_witness :
    gTwoLinked.addLink 14 15 = (gTwoLinked, .error .wouldCreateCycle) :=
  (c5_addlink_cycle_guard gTwoLinked 14 15).1
    ⟨14, 2, .output, .mesh, "out"⟩ ⟨15, 1, .input, .mesh, "in2"⟩
    (by decide) (by decide) rfl rfl rfl (by decide)
    (Relation.ReflTransGen.single ⟨⟨100, 11, 12⟩, by decide, by decide, by decide⟩)

/-! ## Claim C3: upstream-error isolation on a failing chain -/

/-- Step effect of the first (failing) node of the chain: a fresh-state miss,
an invoked compute that fails, a `Node` error, nothing cached. -/
theorem c3_step1 {σ : Type} (g : Graph) (A : NodeId) (fps : List (NodeId × Fingerprint))
    (clock : NodeId → Q) (compute : NodeId → NodeParams → σ → σ × Option String)
    (store0 store1 : σ) (msg : String) (nA : Node)
    (hA : g.findNode A = some nA)
    (hcomp : compute A nA.params store0 = (store1, some msg)) :
    stepNode g fps clock compute ⟨[], [], [], [], 0, 0, [], store0⟩ A =
      ⟨[], [(A, [A])], [.node A msg], [], 0, 0, [], store1⟩ := by
  simp only [stepNode, List.lookup_nil, cacheHit, Bool.false_eq_true, if_false,
    hA, hcomp, Option.isSome_none, List.isEmpty_iff]
  rw [if_pos (by simp)]
  simp

/-- Step effect of the middle node: its direct upstream failed, so it is
marked `Upstream [A]` and its compute is never invoked (the store is
untouched). -/
theorem c3_step2 {σ : Type} (g : Graph) (A B : NodeId) (fps : List (NodeId × Fingerprint))
    (clock : NodeId → Q) (compute : NodeId → NodeParams → σ → σ × Option String)
    (store1 : σ) (msg : String)
    (hupB : g.upstreamNodes B = [A]) :
    stepNode g fps clock compute ⟨[], [(A, [A])], [.node A msg], [], 0, 0, [], store1⟩ B =
      ⟨[], [(B, [A]), (A, [A])], [.node A msg, .upstream B [A]], [], 0, 0, [], store1⟩ := by
  simp only [stepNode, List.lookup_nil, cacheHit, Bool.false_eq_true, if_false, hupB,
    List.lookup_cons_self, List.filter_cons, List.filter_nil, Option.isSome_some,
    List.isEmpty_iff, if_true, List.flatMap_cons, List.flatMap_nil, Option.getD_some,
    List.lookup]
  simp [dedupFirst, dedupFirstAux]

/-- Step effect of the last node: its direct upstream `B` is an
upstream-error target whose root-cause set is `[A]`, so it inherits
`Upstream [A]` and its compute is never invoked. -/
theorem c3_step3 {σ : Type} (g : Graph) (A B C : NodeId) (fps : List (NodeId × Fingerprint))
    (clock : NodeId → Q) (compute : NodeId → NodeParams → σ → σ × Option String)
    (store1 : σ) (msg : String)
    (hupC : g.upstreamNodes C = [B]) :
    stepNode g fps clock compute
        ⟨[], [(B, [A]), (A, [A])], [.node A msg, .upstream B [A]], [], 0, 0, [], store1⟩ C =
      ⟨[], [(C, [A]), (B, [A]), (A, [A])],
       [.node A msg, .upstream B [A], .upstream C [A]], [], 0, 0, [], store1⟩ := by
  simp only [stepNode, List.lookup_nil, cacheHit, Bool.false_eq_true, if_false, hupC,
    List.lookup_cons_self, List.filter_cons, List.filter_nil, Option.isSome_some,
    List.isEmpty_iff, if_true, List.flatMap_cons, List.flatMap_nil, Option.getD_some,
    List.lookup]
  simp [dedupFirst, dedupFirstAux]

/-- C3: for a chain `A → B → C` where `A`'s compute function fails,
evaluating from a fresh state with target `C` yields `output_valid = false`
and the error list `[Node A msg, Upstream B [A], Upstream C [A]]` exactly;
the compute functions of `B` and `C` are never invoked during the pass: the
computed set is empty and the final store is exactly the store `A`'s failing
compute returned. -/
theorem c3_error_isolation {σ : Type} (g : Graph) (A B C : NodeId)
    (clock : NodeId → Q) (compute : NodeId → NodeParams → σ → σ × Option String)
    (store0 store1 : σ) (msg : String) (nA : Node)
    (horder : g.topoSortFrom C = .ok [A, B, C])
    (hupB : g.upstreamNodes B = [A])
    (hupC : g.upstreamNodes C = [B])
    (hA : g.findNode A = some nA)
    (hcomp : compute A nA.params store0 = (store1, some msg)) :
    evaluateFromWith g C clock compute ⟨[]⟩ store0 =
      .ok (⟨C, false, [], ⟨0, 0⟩, [],
            [.node A msg, .upstream B [A], .upstream C [A]]⟩,
           ⟨[]⟩, store1) := by
  unfold evaluateFromWith
  rw [horder]
  simp only [List.foldl_cons, List.foldl_nil]
  rw [c3_step1 g A _ clock compute store0 store1 msg nA hA hcomp,
      c3_step2 g A B _ clock compute store1 msg hupB,
      c3_step3 g A B C _ clock compute store1 msg hupC]
  rfl

/-- C3 witness: the chain fixture `Merge(1) → Transform(2) → Output(3)` with
the real mesh closure — the parameterless Merge fails, Transform and Output
are skipped with upstream attribution `[1]`. -/
theorem c3_witness :
    evaluateFromWith gChain 3 (fun _ => 0) (meshClosure testOracle gChain) ⟨[]⟩ [] =
      .ok (⟨3, false, [], ⟨0, 0⟩, [],
            [.node 1 "Merge requires at least one mesh input",
             .upstream 2 [1], .upstream 3 [1]]⟩,
           ⟨[]⟩, []) :=
  c3_error_isolation gChain 1 2 3 (fun _ => 0) (meshClosure testOracle gChain) [] []
    "Merge requires at least one mesh input" ⟨1, "Merge", "Operators", [10, 11], [12], ⟨[]⟩⟩
    (by decide) (by decide) (by decide) (by decide) (by decide)

/-! ## Claim C4: deterministic evaluation, wall clock excluded -/

/-- One engine step is unaffected by the wall-clock reading except for the
recorded duration. -/
theorem stepNode_clock_irrelevant {σ : Type} (g : Graph) (fps : List (NodeId × Fingerprint))
    (c1 c2 : NodeId → Q) (compute : NodeId → NodeParams → σ → σ × Option String)
    (st1 st2 : PassSt σ) (n : NodeId) (h : st1.stripDur = st2.stripDur) :
    (stepNode g fps c1 compute st1 n).stripDur = (stepNode g fps c2 compute st2 n).stripDur := by
  obtain ⟨ca1, f1, e1, co1, h1, m1, r1, s1⟩ := st1
  obtain ⟨ca2, f2, e2, co2, h2, m2, r2, s2⟩ := st2
  simp only [PassSt.stripDur, PassSt.mk.injEq] at h
  obtain ⟨hc, hf, he, hco, hh, hm, hr, hs⟩ := h
  subst hc hf he hco hh hm hs
  simp only [stepNode]
  split_ifs
  · simp [PassSt.stripDur, hr]
  · rcases compute n (match g.findNode n with
      | some nd => nd.params
      | none => (⟨[]⟩ : NodeParams)) s1 with ⟨store2, res⟩
    cases res <;> simp [PassSt.stripDur, hr]
  · simp [PassSt.stripDur, hr]

/-- Whole-pass version of `stepNode_clock_irrelevant`. -/
theorem foldl_clock_irrelevant {σ : Type} (g : Graph) (fps : List (NodeId × Fingerprint))
    (c1 c2 : NodeId → Q) (compute : NodeId → NodeParams → σ → σ × Option String)
    (order : List NodeId) :
    ∀ st1 st2 : PassSt σ, st1.stripDur = st2.stripDur →
      (order.foldl (stepNode g fps c1 compute) st1).stripDur =
      (order.foldl (stepNode g fps c2 compute) st2).stripDur := by
  induction order with
  | nil => exact fun st1 st2 h => h
  | cons n rest ih =>
      intro st1 st2 h
      exact ih _ _ (stepNode_clock_irrelevant g fps c1 c2 compute st1 st2 n h)


/-- Duration-stripped pass states agree on every control-flow field. -/
theorem stripDur_components {σ : Type} (a b : PassSt σ) (h : a.stripDur = b.stripDur) :
    a.cache = b.cache ∧ a.failRoots = b.failRoots ∧ a.errors = b.errors ∧
    a.computed = b.computed ∧ a.hits = b.hits ∧ a.misses = b.misses ∧ a.store = b.store ∧
    a.reports.map (fun p => (p.1, (⟨0, p.2.cached⟩ : EvalNodeReport))) =
      b.reports.map (fun p => (p.1, ⟨0, p.2.cached⟩)) := by
  obtain ⟨ca1, f1, e1, co1, h1, m1, r1, s1⟩ := a
  obtain ⟨ca2, f2, e2, co2, h2, m2, r2, s2⟩ := b
  simp only [PassSt.stripDur, PassSt.mk.injEq] at h
  exact ⟨h.1, h.2.1, h.2.2.1, h.2.2.2.1, h.2.2.2.2.1, h.2.2.2.2.2.1,
         h.2.2.2.2.2.2.2, h.2.2.2.2.2.2.1⟩

theorem evaluateFromWith_clock_irrelevant {σ : Type} (g : Graph) (T : NodeId)
    (compute : NodeId → NodeParams → σ → σ × Option String)
    (st0 : EvalState) (store0 : σ) (c1 c2 : NodeId → Q) :
    (evaluateFromWith g T c1 compute st0 store0).map (fun r => (r.1.stripDurations, r.2)) =
    (evaluateFromWith g T c2 compute st0 store0).map (fun r => (r.1.stripDurations, r.2)) := by
  unfold evaluateFromWith
  rcases horder : g.topoSortFrom T with e | order
  · rfl
  · have hfin := foldl_clock_irrelevant g (fingerprintsFor g order) c1 c2 compute order
      ⟨st0.cache, [], [], [], 0, 0, [], store0⟩ ⟨st0.cache, [], [], [], 0, 0, [], store0⟩ rfl
    obtain ⟨hc, hf, he, hco, hh, hm, hs, hrep⟩ := stripDur_components _ _ hfin
    simp only [Except.map, EvalReport.stripDurations, hc, he, hco, hh, hm, hs, hrep]

/-- C4: evaluation is deterministic — the engine and the mesh layer are pure
functions of the graph, the parameter set, and the evaluation state, so two
calls on identical inputs are definitionally equal; and the only
wall-clock-dependent data is the recorded per-node duration: for any two
clock inputs, the two passes produce identical results, identical final
states, and identical reports up to the recorded durations (no
wall-clock-dependent branching affects the outcome). -/
theorem c4_determinism (Ω : NumOracle) (g : Graph) (T : NodeId) (st : MeshEvalState)
    (c1 c2 : NodeId → Q) :
    (evaluateMeshGraph Ω c1 g T st).map
      (fun res => (res.1.report.stripDurations, res.1.output, res.2)) =
    (evaluateMeshGraph Ω c2 g T st).map
      (fun res => (res.1.report.stripDurations, res.1.output, res.2)) := by
  have h := evaluateFromWith_clock_irrelevant g T (meshClosure Ω g) st.eval st.outputs c1 c2
  unfold evaluateMeshGraph
  rcases h1 : evaluateFromWith g T c1 (meshClosure Ω g) st.eval st.outputs with e1 | ⟨r1, ec1, s1⟩ <;>
    rcases h2 : evaluateFromWith g T c2 (meshClosure Ω g) st.eval st.outputs with e2 | ⟨r2, ec2, s2⟩ <;>
    rw [h1, h2] at h <;> simp only [Except.map] at h ⊢
  · injection h with h3
    rw [h3]
  · cases h
  · cases h
  · injection h with h3
    injection h3 with ha hb
    injection hb with hb1 hb2
    subst hb1
    subst hb2
    rw [ha]


/-! ## Claim C2: second-pass cache behaviour (spec 4.2, modelled engine)

A successful evaluation pass leaves behind a cache and store from which an
immediately repeated evaluation of the same graph and target reports zero
misses, an empty computed list, the same output, and an unchanged state. -/

theorem gatherInputs_congr (s1 s2 : List (NodeId × Mesh)) (ups : List NodeId)
    (h : ∀ u ∈ ups, s1.lookup u = s2.lookup u) :
    gatherInputs s1 ups = gatherInputs s2 ups := by
  induction ups with
  | nil => rfl
  | cons u rest ih =>
      simp only [gatherInputs]
      rw [h u (List.mem_cons_self u rest), ih (fun v hv => h v (List.mem_cons_of_mem _ hv))]

theorem meshComputeFor_congr (Ω : NumOracle) (g : Graph) (n : NodeId) (params : NodeParams)
    (s1 s2 : List (NodeId × Mesh))
    (h : ∀ u ∈ g.upstreamNodes n, s1.lookup u = s2.lookup u) :
    meshComputeFor Ω g n params s1 = meshComputeFor Ω g n params s2 := by
  unfold meshComputeFor
  rw [gatherInputs_congr s1 s2 _ h]

/-- The mesh closure either prepends exactly its own key on success or
returns the store unchanged on failure. -/
theorem meshClosure_shape (Ω : NumOracle) (g : Graph) (n : NodeId) (params : NodeParams)
    (store : List (NodeId × Mesh)) :
    (∃ mesh, meshComputeFor Ω g n params store = .ok mesh ∧
       meshClosure Ω g n params store = ((n, mesh) :: store, none)) ∨
    (∃ msg, meshComputeFor Ω g n params store = .error msg ∧
       meshClosure Ω g n params store = (store, some msg)) := by
  unfold meshClosure
  rcases meshComputeFor Ω g n params store with msg | mesh
  · exact Or.inr ⟨msg, rfl, rfl⟩
  · exact Or.inl ⟨mesh, rfl, rfl⟩

theorem lookup_cons_ne {α : Type} [DecidableEq α] {β : Type} (m n : α) (e : β)
    (t : List (α × β)) (hm : m ≠ n) : List.lookup m ((n, e) :: t) = List.lookup m t := by
  simp [List.lookup, beq_eq_false_iff_ne.mpr hm]

theorem stepNode_frame (Ω : NumOracle) (g : Graph) (fps : List (NodeId × Fingerprint))
    (clock : NodeId → Q) (st : PassSt (List (NodeId × Mesh))) (n m : NodeId) (hm : m ≠ n) :
    ((stepNode g fps clock (meshClosure Ω g) st n).cache.lookup m = st.cache.lookup m) ∧
    ((stepNode g fps clock (meshClosure Ω g) st n).failRoots.lookup m = st.failRoots.lookup m) ∧
    ((stepNode g fps clock (meshClosure Ω g) st n).store.lookup m = st.store.lookup m) := by
  simp only [stepNode]
  split_ifs with h1 h2
  · exact ⟨rfl, rfl, rfl⟩
  · rcases meshClosure_shape Ω g n (match g.findNode n with
      | some nd => nd.params
      | none => (⟨[]⟩ : NodeParams)) st.store with ⟨mesh, _, hcl⟩ | ⟨msg, _, hcl⟩
    · rw [hcl]
      exact ⟨lookup_cons_ne m n _ _ hm, rfl, lookup_cons_ne m n _ _ hm⟩
    · rw [hcl]
      exact ⟨rfl, lookup_cons_ne m n _ _ hm, rfl⟩
  · exact ⟨rfl, lookup_cons_ne m n _ _ hm, rfl⟩

theorem foldl_frame (Ω : NumOracle) (g : Graph) (fps : List (NodeId × Fingerprint))
    (clock : NodeId → Q) (l : List NodeId) :
    ∀ (st : PassSt (List (NodeId × Mesh))) (m : NodeId), m ∉ l →
    ((l.foldl (stepNode g fps clock (meshClosure Ω g)) st).cache.lookup m = st.cache.lookup m) ∧
    ((l.foldl (stepNode g fps clock (meshClosure Ω g)) st).failRoots.lookup m =
      st.failRoots.lookup m) ∧
    ((l.foldl (stepNode g fps clock (meshClosure Ω g)) st).store.lookup m =
      st.store.lookup m) := by
  induction l with
  | nil => exact fun st m _ => ⟨rfl, rfl, rfl⟩
  | cons n rest ih =>
      intro st m hm
      have hmn : m ≠ n := fun h => hm (h ▸ List.mem_cons_self n rest)
      have hmr : m ∉ rest := fun h => hm (List.mem_cons_of_mem _ h)
      obtain ⟨ic, if2, is⟩ := ih (stepNode g fps clock (meshClosure Ω g) st n) m hmr
      obtain ⟨sc, sf, ss⟩ := stepNode_frame Ω g fps clock st n m hmn
      exact ⟨ic.trans sc, if2.trans sf, is.trans ss⟩

theorem orderedFrom_cons (g : Graph) (seen : List NodeId) (n : NodeId) (rest : List NodeId)
    (h : Graph.orderedFrom g seen (n :: rest) = true) :
    g.containsNode n = true ∧ n ∉ seen ∧ (∀ u ∈ g.upstreamNodes n, u ∈ seen) ∧
    Graph.orderedFrom g (seen ++ [n]) rest = true := by
  simp only [Graph.orderedFrom, Bool.decide_and, Bool.and_eq_true, decide_eq_true_eq,
    List.all_eq_true] at h
  exact ⟨h.1, h.2.1, h.2.2.1, h.2.2.2⟩

theorem orderedFrom_disjoint (g : Graph) :
    ∀ (l : List NodeId) (seen : List NodeId), Graph.orderedFrom g seen l = true →
      ∀ x ∈ l, x ∉ seen := by
  intro l
  induction l with
  | nil => intro seen _ x hx; cases hx
  | cons n rest ih =>
      intro seen h x hx
      obtain ⟨_, hn, _, hrest⟩ := orderedFrom_cons g seen n rest h
      cases hx with
      | head => exact hn
      | tail _ hx =>
          intro hmem
          exact ih (seen ++ [n]) hrest x hx (List.mem_append_left _ hmem)

theorem orderedFrom_nodup (g : Graph) :
    ∀ (l : List NodeId) (seen : List NodeId), Graph.orderedFrom g seen l = true → l.Nodup := by
  intro l
  induction l with
  | nil => intro _ _; exact List.nodup_nil
  | cons n rest ih =>
      intro seen h
      obtain ⟨_, _, _, hrest⟩ := orderedFrom_cons g seen n rest h
      refine List.nodup_cons.mpr ⟨?_, ih (seen ++ [n]) hrest⟩
      intro hn
      exact orderedFrom_disjoint g rest (seen ++ [n]) hrest n hn
        (List.mem_append_right _ (List.mem_singleton.mpr rfl))

theorem orderedFrom_split (g : Graph) :
    ∀ (pre : List NodeId) (l seen : List NodeId) (n : NodeId) (post : List NodeId),
      Graph.orderedFrom g seen l = true → l = pre ++ n :: post →
      (∀ u ∈ g.upstreamNodes n, u ∈ seen ++ pre) ∧ n ∉ seen ++ pre ∧
        g.containsNode n = true := by
  intro pre
  induction pre with
  | nil =>
      intro l seen n post h hl
      subst hl
      obtain ⟨hc, hn, hup, _⟩ := orderedFrom_cons g seen n post h
      simp only [List.append_nil]
      exact ⟨hup, hn, hc⟩
  | cons a pre2 ih =>
      intro l seen n post h hl
      subst hl
      obtain ⟨_, _, _, hrest⟩ := orderedFrom_cons g seen a (pre2 ++ n :: post) h
      obtain ⟨hup, hn, hc⟩ := ih (pre2 ++ n :: post) (seen ++ [a]) n post hrest rfl
      rw [List.append_assoc] at hup hn
      exact ⟨hup, hn, hc⟩

theorem topoSortFrom_ok_props (g : Graph) (T : NodeId) (order : List NodeId)
    (h : g.topoSortFrom T = .ok order) :
    Graph.orderedFrom g [] order = true ∧ Graph.feedsChain g order = true ∧
    order.getLast? = some T := by
  simp only [Graph.topoSortFrom] at h
  split_ifs at h with h1 h2
  · injection h with h3
    subst h3
    simp only [Graph.checkTopo, Bool.decide_and, Bool.and_eq_true, decide_eq_true_eq] at h2
    exact ⟨h2.1, h2.2.1, h2.2.2⟩

theorem lookup_cons_self {α : Type} [DecidableEq α] {β : Type} (n : α) (e : β)
    (t : List (α × β)) : List.lookup n ((n, e) :: t) = some e := by
  simp [List.lookup]

theorem c2_step (Ω : NumOracle) (g : Graph) (fps : List (NodeId × Fingerprint))
    (c : NodeId → Q) (A B F : PassSt (List (NodeId × Mesh))) (n : NodeId)
    (rest2 : List NodeId)
    (hF : F = rest2.foldl (stepNode g fps c (meshClosure Ω g))
      (stepNode g fps c (meshClosure Ω g) A n))
    (hnr : n ∉ rest2)
    (hu : ∀ u ∈ g.upstreamNodes n, u ∉ rest2 ∧ u ≠ n)
    (hBc : B.cache = F.cache) (hBs : B.store = F.store)
    (hBf : B.failRoots = A.failRoots) (hBe : B.errors = A.errors)
    (hBco : B.computed = []) (hBm : B.misses = 0) :
    (stepNode g fps c (meshClosure Ω g) B n).cache = F.cache ∧
    (stepNode g fps c (meshClosure Ω g) B n).store = F.store ∧
    (stepNode g fps c (meshClosure Ω g) B n).failRoots =
      (stepNode g fps c (meshClosure Ω g) A n).failRoots ∧
    (stepNode g fps c (meshClosure Ω g) B n).errors =
      (stepNode g fps c (meshClosure Ω g) A n).errors ∧
    (stepNode g fps c (meshClosure Ω g) B n).computed = [] ∧
    (stepNode g fps c (meshClosure Ω g) B n).misses = 0 := by
  have hframe := foldl_frame Ω g fps c rest2 (stepNode g fps c (meshClosure Ω g) A n) n hnr
  by_cases hhit : cacheHit (List.lookup n A.cache) ((List.lookup n fps).getD []) = true
  · -- pass-1 cache hit: the entry survives to F, pass 2 hits it again
    have hA1 : stepNode g fps c (meshClosure Ω g) A n =
        { A with hits := A.hits + 1,
                 reports := (n, ⟨0, true⟩) :: A.reports } := by
      simp only [stepNode]
      rw [if_pos hhit]
    have hFc : List.lookup n F.cache = List.lookup n A.cache := by
      rw [hF]
      exact (hframe.1).trans (by rw [hA1])
    have hBhit : cacheHit (List.lookup n B.cache) ((List.lookup n fps).getD []) = true := by
      rw [hBc, hFc]
      exact hhit
    have hB1 : stepNode g fps c (meshClosure Ω g) B n =
        { B with hits := B.hits + 1,
                 reports := (n, ⟨0, true⟩) :: B.reports } := by
      simp only [stepNode]
      rw [if_pos hBhit]
    rw [hB1, hA1]
    exact ⟨hBc, hBs, hBf, hBe, hBco, hBm⟩
  · -- pass-1 miss
    by_cases hemp : (List.filter (fun u => (List.lookup u A.failRoots).isSome)
        (g.upstreamNodes n)).isEmpty = true
    · -- no failed upstream: pass 1 invoked the closure
      rcases meshClosure_shape Ω g n (match g.findNode n with
          | some nd => nd.params
          | none => (⟨[]⟩ : NodeParams)) A.store with ⟨mesh, hok, hcl⟩ | ⟨msg, herr, hcl⟩
      · -- pass-1 fresh success: cached entry makes pass 2 hit
        have hA1 : stepNode g fps c (meshClosure Ω g) A n =
            { A with cache := (n, ⟨(List.lookup n fps).getD [], true⟩) :: A.cache,
                     computed := A.computed ++ [n], misses := A.misses + 1,
                     reports := (n, ⟨c n, false⟩) :: A.reports,
                     store := (n, mesh) :: A.store } := by
          simp only [stepNode]
          rw [if_neg hhit, if_pos hemp, hcl]
        have hFc : List.lookup n F.cache =
            some ⟨(List.lookup n fps).getD [], true⟩ := by
          rw [hF]
          refine (hframe.1).trans ?_
          rw [hA1]
          exact lookup_cons_self n _ A.cache
        have hBhit : cacheHit (List.lookup n B.cache) ((List.lookup n fps).getD []) = true := by
          rw [hBc, hFc]
          simp [cacheHit]
        have hB1 : stepNode g fps c (meshClosure Ω g) B n =
            { B with hits := B.hits + 1,
                     reports := (n, ⟨0, true⟩) :: B.reports } := by
          simp only [stepNode]
          rw [if_pos hBhit]
        rw [hB1, hA1]
        exact ⟨hBc, hBs, hBf, hBe, hBco, hBm⟩
      · -- pass-1 compute failure: nothing cached, pass 2 recomputes the same failure
        have hA1 : stepNode g fps c (meshClosure Ω g) A n =
            { A with errors := A.errors ++ [.node n msg],
                     failRoots := (n, [n]) :: A.failRoots } := by
          simp only [stepNode]
          rw [if_neg hhit, if_pos hemp, hcl]
        have hFc : List.lookup n F.cache = List.lookup n A.cache := by
          rw [hF]
          exact (hframe.1).trans (by rw [hA1])
        have hBhit : ¬ cacheHit (List.lookup n B.cache) ((List.lookup n fps).getD []) = true := by
          rw [hBc, hFc]
          exact hhit
        -- pass-2 upstream stores agree with pass-1 at compute time
        have hstores : ∀ u ∈ g.upstreamNodes n, List.lookup u B.store = List.lookup u A.store := by
          intro u hu2
          obtain ⟨hur, hun⟩ := hu u hu2
          have h2 := (foldl_frame Ω g fps c rest2
            (stepNode g fps c (meshClosure Ω g) A n) u hur).2.2
          rw [hBs, hF]
          refine h2.trans ?_
          rw [hA1]
        have herr2 : meshComputeFor Ω g n (match g.findNode n with
            | some nd => nd.params
            | none => (⟨[]⟩ : NodeParams)) B.store = .error msg := by
          rw [meshComputeFor_congr Ω g n _ B.store A.store hstores]
          exact herr
        have hcl2 : meshClosure Ω g n (match g.findNode n with
            | some nd => nd.params
            | none => (⟨[]⟩ : NodeParams)) B.store = (B.store, some msg) := by
          unfold meshClosure
          rw [herr2]
        have hemp2 : (List.filter (fun u => (List.lookup u B.failRoots).isSome)
            (g.upstreamNodes n)).isEmpty = true := by
          rw [hBf]
          exact hemp
        have hB1 : stepNode g fps c (meshClosure Ω g) B n =
            { B with errors := B.errors ++ [.node n msg],
                     failRoots := (n, [n]) :: B.failRoots } := by
          simp only [stepNode]
          rw [if_neg hBhit, if_pos hemp2, hcl2]
        rw [hB1, hA1]
        refine ⟨hBc, hBs, by rw [hBf], by rw [hBe], hBco, hBm⟩
    · -- some direct upstream failed in pass 1: pass 2 skips identically
      have hA1 : stepNode g fps c (meshClosure Ω g) A n =
          { A with errors := A.errors ++ [.upstream n (dedupFirst
              ((List.filter (fun u => (List.lookup u A.failRoots).isSome)
                (g.upstreamNodes n)).flatMap
                (fun u => (List.lookup u A.failRoots).getD [])))],
                   failRoots := (n, dedupFirst
              ((List.filter (fun u => (List.lookup u A.failRoots).isSome)
                (g.upstreamNodes n)).flatMap
                (fun u => (List.lookup u A.failRoots).getD []))) :: A.failRoots } := by
        simp only [stepNode]
        rw [if_neg hhit, if_neg hemp]
      have hFc : List.lookup n F.cache = List.lookup n A.cache := by
        rw [hF]
        exact (hframe.1).trans (by rw [hA1])
      have hBhit : ¬ cacheHit (List.lookup n B.cache) ((List.lookup n fps).getD []) = true := by
        rw [hBc, hFc]
        exact hhit
      have hemp2 : ¬ (List.filter (fun u => (List.lookup u B.failRoots).isSome)
          (g.upstreamNodes n)).isEmpty = true := by
        rw [hBf]
        exact hemp
      have hB1 : stepNode g fps c (meshClosure Ω g) B n =
          { B with errors := B.errors ++ [.upstream n (dedupFirst
              ((List.filter (fun u => (List.lookup u B.failRoots).isSome)
                (g.upstreamNodes n)).flatMap
                (fun u => (List.lookup u B.failRoots).getD [])))],
                   failRoots := (n, dedupFirst
              ((List.filter (fun u => (List.lookup u B.failRoots).isSome)
                (g.upstreamNodes n)).flatMap
                (fun u => (List.lookup u B.failRoots).getD []))) :: B.failRoots } := by
        simp only [stepNode]
        rw [if_neg hBhit, if_neg hemp2]
      rw [hB1, hA1]
      refine ⟨hBc, hBs, by rw [hBf], by rw [hBe, hBf], hBco, hBm⟩

theorem c2_fold_aux (Ω : NumOracle) (g : Graph) (fps : List (NodeId × Fingerprint))
    (c : NodeId → Q) (init1 init2 : PassSt (List (NodeId × Mesh)))
    (order : List NodeId) (hord : Graph.orderedFrom g [] order = true) :
    ∀ (rest pre : List NodeId), order = pre ++ rest →
    ((pre.foldl (stepNode g fps c (meshClosure Ω g)) init2).cache =
        (order.foldl (stepNode g fps c (meshClosure Ω g)) init1).cache ∧
     (pre.foldl (stepNode g fps c (meshClosure Ω g)) init2).store =
        (order.foldl (stepNode g fps c (meshClosure Ω g)) init1).store ∧
     (pre.foldl (stepNode g fps c (meshClosure Ω g)) init2).failRoots =
        (pre.foldl (stepNode g fps c (meshClosure Ω g)) init1).failRoots ∧
     (pre.foldl (stepNode g fps c (meshClosure Ω g)) init2).errors =
        (pre.foldl (stepNode g fps c (meshClosure Ω g)) init1).errors ∧
     (pre.foldl (stepNode g fps c (meshClosure Ω g)) init2).computed = [] ∧
     (pre.foldl (stepNode g fps c (meshClosure Ω g)) init2).misses = 0) →
    ((order.foldl (stepNode g fps c (meshClosure Ω g)) init2).cache =
        (order.foldl (stepNode g fps c (meshClosure Ω g)) init1).cache ∧
     (order.foldl (stepNode g fps c (meshClosure Ω g)) init2).store =
        (order.foldl (stepNode g fps c (meshClosure Ω g)) init1).store ∧
     (order.foldl (stepNode g fps c (meshClosure Ω g)) init2).failRoots =
        (order.foldl (stepNode g fps c (meshClosure Ω g)) init1).failRoots ∧
     (order.foldl (stepNode g fps c (meshClosure Ω g)) init2).errors =
        (order.foldl (stepNode g fps c (meshClosure Ω g)) init1).errors ∧
     (order.foldl (stepNode g fps c (meshClosure Ω g)) init2).computed = [] ∧
     (order.foldl (stepNode g fps c (meshClosure Ω g)) init2).misses = 0) := by
  intro rest
  induction rest with
  | nil =>
      intro pre hsplit hinv
      rw [List.append_nil] at hsplit
      subst hsplit
      exact hinv
  | cons n rest2 ih =>
      intro pre hsplit hinv
      obtain ⟨hBc, hBs, hBf, hBe, hBco, hBm⟩ := hinv
      have hnodup : order.Nodup := orderedFrom_nodup g order [] hord
      have hnodup2 : (pre ++ n :: rest2).Nodup := by rw [← hsplit]; exact hnodup
      have hnr : n ∉ rest2 := by
        have h2 := (List.nodup_append.mp hnodup2).2.1
        exact (List.nodup_cons.mp h2).1
      have hdisj := (List.nodup_append.mp hnodup2).2.2
      obtain ⟨hup, hnpre, _⟩ := orderedFrom_split g pre order [] n rest2 hord hsplit
      simp only [List.nil_append] at hup hnpre
      have hu : ∀ u ∈ g.upstreamNodes n, u ∉ rest2 ∧ u ≠ n := by
        intro u hu2
        have hupre : u ∈ pre := hup u hu2
        have hnot : u ∉ n :: rest2 := by
          intro hmem
          exact hdisj hupre hmem
        exact ⟨fun h2 => hnot (List.mem_cons_of_mem _ h2),
               fun h2 => hnot (h2 ▸ List.mem_cons_self n rest2)⟩
      have hFdec : order.foldl (stepNode g fps c (meshClosure Ω g)) init1 =
          rest2.foldl (stepNode g fps c (meshClosure Ω g))
            (stepNode g fps c (meshClosure Ω g)
              (pre.foldl (stepNode g fps c (meshClosure Ω g)) init1) n) := by
        rw [hsplit, List.foldl_append, List.foldl_cons]
      obtain ⟨sc, ss, sf, se, sco, sm⟩ := c2_step Ω g fps c
        (pre.foldl (stepNode g fps c (meshClosure Ω g)) init1)
        (pre.foldl (stepNode g fps c (meshClosure Ω g)) init2)
        (order.foldl (stepNode g fps c (meshClosure Ω g)) init1) n rest2
        hFdec hnr hu hBc hBs hBf hBe hBco hBm
      refine ih (pre ++ [n]) (by rw [hsplit, List.append_assoc]; rfl) ?_
      rw [List.foldl_append, List.foldl_append]
      simp only [List.foldl_cons, List.foldl_nil]
      exact ⟨sc, ss, sf, se, sco, sm⟩

/-- C2: after a successful `evaluate_mesh_graph` pass, evaluating the same graph
and target again from the resulting state succeeds with the same output mesh,
records zero cache misses and an empty computed list, and leaves the state
(cache and stored outputs) unchanged. -/
theorem c2_second_pass_cached (Ω : NumOracle) (c : NodeId → Q) (g : Graph) (T : NodeId)
    (st0 : MeshEvalState) (pr : MeshEvalResult × MeshEvalState)
    (h : evaluateMeshGraph Ω c g T st0 = .ok pr) :
    ∃ pr2 : MeshEvalResult × MeshEvalState,
      evaluateMeshGraph Ω c g T pr.2 = .ok pr2 ∧
      pr2.1.output = pr.1.output ∧
      pr2.1.report.stats.misses = 0 ∧
      pr2.1.report.computed = [] ∧
      pr2.2 = pr.2 := by
  unfold evaluateMeshGraph evaluateFromWith at h ⊢
  rcases horder : g.topoSortFrom T with e | order
  · rw [horder] at h
    exact absurd h (by simp)
  · rw [horder] at h
    dsimp only at h ⊢
    obtain ⟨hord, _, _⟩ := topoSortFrom_ok_props g T order horder
    injection h with h2
    subst h2
    dsimp only
    have hfold := c2_fold_aux Ω g (fingerprintsFor g order) c
      ⟨st0.eval.cache, [], [], [], 0, 0, [], st0.outputs⟩
      ⟨(order.foldl (stepNode g (fingerprintsFor g order) c (meshClosure Ω g))
          ⟨st0.eval.cache, [], [], [], 0, 0, [], st0.outputs⟩).cache,
       [], [], [], 0, 0, [],
       (order.foldl (stepNode g (fingerprintsFor g order) c (meshClosure Ω g))
          ⟨st0.eval.cache, [], [], [], 0, 0, [], st0.outputs⟩).store⟩
      order hord order [] rfl ⟨rfl, rfl, rfl, rfl, rfl, rfl⟩
    obtain ⟨fc, fs, ff, fe, fco, fm⟩ := hfold
    refine ⟨_, rfl, ?_, ?_, ?_, ?_⟩
    · dsimp only
      rw [fs]
    · dsimp only
      rw [fm]
    · dsimp only
      rw [fco]
    · dsimp only
      rw [fc, fs]

/-- Witness for C2 at the concrete fixture: a fresh pass over the linked
Box-Merge graph followed by a second pass from the produced state. -/
theorem c2_witness :
    ∃ pr pr2 : MeshEvalResult × MeshEvalState,
      evaluateMeshGraph testOracle (fun _ => 0) gBoxMerge 2 ⟨⟨[]⟩, []⟩ = .ok pr ∧
      evaluateMeshGraph testOracle (fun _ => 0) gBoxMerge 2 pr.2 = .ok pr2 ∧
      pr2.1.output = pr.1.output ∧
      pr2.1.report.stats.misses = 0 ∧
      pr2.1.report.computed = [] ∧
      pr2.2 = pr.2 := by
  have hOk : (evaluateMeshGraph testOracle (fun _ => 0) gBoxMerge 2 ⟨⟨[]⟩, []⟩).isOk = true := by
    decide
  rcases hE : evaluateMeshGraph testOracle (fun _ => 0) gBoxMerge 2 ⟨⟨[]⟩, []⟩ with e | pr
  · rw [hE] at hOk
    simp [Except.isOk, Except.toBool] at hOk
  · obtain ⟨pr2, h1, h2, h3, h4, h5⟩ :=
      c2_second_pass_cached testOracle (fun _ => 0) gBoxMerge 2 ⟨⟨[]⟩, []⟩ pr hE
    exact ⟨pr, pr2, rfl, h1, h2, h3, h4, h5⟩


/-! ## Claim C1: output payload versus the output_valid flag

The source of `evaluate_mesh_graph` (mesh_eval.rs line 51) reads the outputs
map unconditionally, so a payload stored by an earlier pass can be returned
even when the current report has `output_valid = false`.  From a state with
an empty cache and no stored payload for the target, the claimed implication
does hold; the fold invariant below proves it. -/

theorem mem_of_getLastQ (l : List NodeId) (T : NodeId) (h : l.getLast? = some T) : T ∈ l := by
  obtain ⟨hne, heq⟩ := List.mem_getLast?_eq_getLast (Option.mem_def.mpr h)
  rw [heq]
  exact List.getLast_mem hne

theorem filter_isEmpty_not_mem {α : Type} {p : α → Bool} {l : List α}
    (h : (l.filter p).isEmpty = true) (u : α) (hu : u ∈ l) : ¬ p u = true := by
  intro hp
  have hmem : u ∈ l.filter p := List.mem_filter.mpr ⟨hu, hp⟩
  cases hfp : l.filter p with
  | nil => rw [hfp] at hmem; cases hmem
  | cons a t => rw [hfp] at h; exact absurd h (by simp [List.isEmpty])

theorem feedsChain_cons (g : Graph) (a : NodeId) (l : List NodeId)
    (h : Graph.feedsChain g (a :: l) = true) : Graph.feedsChain g l = true := by
  cases l with
  | nil => rfl
  | cons b t =>
      simp only [Graph.feedsChain, Bool.decide_and, Bool.and_eq_true, decide_eq_true_eq,
        List.any_eq_true] at h
      exact h.2

theorem feedsChain_suffix (g : Graph) :
    ∀ (pre l : List NodeId), Graph.feedsChain g (pre ++ l) = true →
      Graph.feedsChain g l = true := by
  intro pre
  induction pre with
  | nil => exact fun l h => h
  | cons a pre2 ih => exact fun l h => ih l (feedsChain_cons g a (pre2 ++ l) h)

theorem feedsChain_head (g : Graph) (n b : NodeId) (t : List NodeId)
    (h : Graph.feedsChain g (n :: b :: t) = true) :
    ∃ m ∈ b :: t, n ∈ g.upstreamNodes m := by
  simp only [Graph.feedsChain, Bool.decide_and, Bool.and_eq_true, decide_eq_true_eq,
    List.any_eq_true] at h
  exact h.1

/-- Fail-propagation invariant of one evaluation pass: starting from a state
whose cache and fail-root keys all belong to the already-processed prefix,
whose store agrees with the initial store outside that prefix, and whose
error list (when non-empty) is witnessed by a failed direct upstream of some
remaining node, the finished pass either holds no payload for the target or
recorded no errors at all. -/
theorem c1_fold_aux (Ω : NumOracle) (g : Graph) (fps : List (NodeId × Fingerprint))
    (c : NodeId → Q) (store0 : List (NodeId × Mesh)) (T : NodeId) (order : List NodeId)
    (hord : Graph.orderedFrom g [] order = true)
    (hchain : Graph.feedsChain g order = true)
    (hlast : order.getLast? = some T)
    (h0 : store0.lookup T = none) :
    ∀ (rest pre : List NodeId) (S : PassSt (List (NodeId × Mesh))),
      order = pre ++ rest →
      (∀ n, (S.cache.lookup n).isSome = true → n ∈ pre) →
      (∀ n, (S.failRoots.lookup n).isSome = true → n ∈ pre) →
      (∀ m, m ∉ pre → S.store.lookup m = store0.lookup m) →
      (rest ≠ [] → S.errors ≠ [] →
        ∃ y ∈ rest, ∃ u ∈ g.upstreamNodes y, (S.failRoots.lookup u).isSome = true) →
      (S.store.lookup T = none ∨ S.errors = []) →
      ((rest.foldl (stepNode g fps c (meshClosure Ω g)) S).store.lookup T = none ∨
        (rest.foldl (stepNode g fps c (meshClosure Ω g)) S).errors = []) := by
  intro rest
  induction rest with
  | nil =>
      intro pre S _ _ _ _ _ h5
      exact h5
  | cons n rest2 ih =>
      intro pre S hsplit h1 h2 h3 h4 h5
      rw [List.foldl_cons]
      have hnodup : order.Nodup := orderedFrom_nodup g order [] hord
      have hnodup2 : (pre ++ n :: rest2).Nodup := by rw [← hsplit]; exact hnodup
      have hdisj := (List.nodup_append.mp hnodup2).2.2
      have hnpre : n ∉ pre := fun hmem => hdisj hmem (List.mem_cons_self n rest2)
      have hT2 : (n :: rest2).getLast? = some T := by
        rw [← List.getLast?_append_cons pre n rest2, ← hsplit]
        exact hlast
      have hTrest : T ∈ n :: rest2 := mem_of_getLastQ _ T hT2
      have hTpre : T ∉ pre := fun hmem => hdisj hmem hTrest
      have hclk : S.cache.lookup n = none := by
        cases hcl2 : S.cache.lookup n with
        | none => rfl
        | some e => exact absurd (h1 n (by rw [hcl2]; rfl)) hnpre
      have hhit : ¬ cacheHit (S.cache.lookup n) ((List.lookup n fps).getD []) = true := by
        rw [hclk]
        simp [cacheHit]
      by_cases hemp : (List.filter (fun u => (List.lookup u S.failRoots).isSome)
          (g.upstreamNodes n)).isEmpty = true
      · rcases meshClosure_shape Ω g n (match g.findNode n with
            | some nd => nd.params
            | none => (⟨[]⟩ : NodeParams)) S.store with ⟨mesh, _, hcl⟩ | ⟨msg, _, hcl⟩
        · -- fresh compute succeeded: the mesh is stored under the key n
          have hS2 : stepNode g fps c (meshClosure Ω g) S n =
              { S with cache := (n, ⟨(List.lookup n fps).getD [], true⟩) :: S.cache,
                       computed := S.computed ++ [n], misses := S.misses + 1,
                       reports := (n, ⟨c n, false⟩) :: S.reports,
                       store := (n, mesh) :: S.store } := by
            simp only [stepNode]
            rw [if_neg hhit, if_pos hemp, hcl]
          refine ih (pre ++ [n]) _ (by rw [hsplit, List.append_assoc]; rfl) ?_ ?_ ?_ ?_ ?_
          · intro m hm
            rw [hS2] at hm
            dsimp only at hm
            by_cases hmn : m = n
            · exact List.mem_append_right _ (by rw [hmn]; exact List.mem_singleton.mpr rfl)
            · rw [lookup_cons_ne m n _ _ hmn] at hm
              exact List.mem_append_left _ (h1 m hm)
          · intro m hm
            rw [hS2] at hm
            dsimp only at hm
            exact List.mem_append_left _ (h2 m hm)
          · intro m hm
            have hmpre : m ∉ pre := fun hx => hm (List.mem_append_left _ hx)
            have hmn : m ≠ n := fun hx =>
              hm (List.mem_append_right _ (by rw [hx]; exact List.mem_singleton.mpr rfl))
            rw [hS2]
            dsimp only
            rw [lookup_cons_ne m n _ _ hmn]
            exact h3 m hmpre
          · intro _ herrs
            rw [hS2] at herrs
            dsimp only at herrs
            obtain ⟨y, hy, u, hu, hus⟩ := h4 (by simp) herrs
            have hyn : y ≠ n := by
              intro he
              subst he
              exact (filter_isEmpty_not_mem hemp u hu) hus
            have hy2 : y ∈ rest2 := by
              cases hy with
              | head => exact absurd rfl hyn
              | tail _ hx => exact hx
            exact ⟨y, hy2, u, hu, by rw [hS2]; dsimp only; exact hus⟩
          · by_cases hnT : n = T
            · -- the target itself computed successfully: no errors can exist
              have hrest2 : rest2 = [] := by
                cases hr2 : rest2 with
                | nil => rfl
                | cons b t =>
                    exfalso
                    rw [hr2] at hT2 hnodup2
                    rw [List.getLast?_cons_cons] at hT2
                    have hTbt : T ∈ b :: t := mem_of_getLastQ _ T hT2
                    have hnodup3 : (n :: b :: t).Nodup := (List.nodup_append.mp hnodup2).2.1
                    rw [hnT] at hnodup3
                    exact (List.nodup_cons.mp hnodup3).1 hTbt
              have hSe : S.errors = [] := by
                by_cases hSe2 : S.errors = []
                · exact hSe2
                · exfalso
                  obtain ⟨y, hy, u, hu, hus⟩ := h4 (by simp) hSe2
                  rw [hrest2] at hy
                  have hyn : y = n := by
                    cases hy with
                    | head => rfl
                    | tail _ hx => cases hx
                  rw [hyn] at hu
                  exact (filter_isEmpty_not_mem hemp u hu) hus
              exact Or.inr (by rw [hS2]; dsimp only; exact hSe)
            · rcases h5 with h5a | h5b
              · refine Or.inl ?_
                rw [hS2]
                dsimp only
                rw [lookup_cons_ne T n _ _ (fun he => hnT he.symm)]
                exact h5a
              · exact Or.inr (by rw [hS2]; dsimp only; exact h5b)
        · -- fresh compute failed: an error and a fail root are recorded
          have hS2 : stepNode g fps c (meshClosure Ω g) S n =
              { S with errors := S.errors ++ [.node n msg],
                       failRoots := (n, [n]) :: S.failRoots } := by
            simp only [stepNode]
            rw [if_neg hhit, if_pos hemp, hcl]
          refine ih (pre ++ [n]) _ (by rw [hsplit, List.append_assoc]; rfl) ?_ ?_ ?_ ?_ ?_
          · intro m hm
            rw [hS2] at hm
            dsimp only at hm
            exact List.mem_append_left _ (h1 m hm)
          · intro m hm
            rw [hS2] at hm
            dsimp only at hm
            by_cases hmn : m = n
            · exact List.mem_append_right _ (by rw [hmn]; exact List.mem_singleton.mpr rfl)
            · rw [lookup_cons_ne m n _ _ hmn] at hm
              exact List.mem_append_left _ (h2 m hm)
          · intro m hm
            rw [hS2]
            dsimp only
            exact h3 m (fun hx => hm (List.mem_append_left _ hx))
          · intro hne2 _
            cases hr2 : rest2 with
            | nil => exact absurd hr2 hne2
            | cons b t =>
                have hchain2 : Graph.feedsChain g (n :: b :: t) = true := by
                  have hsuf := feedsChain_suffix g pre (n :: rest2)
                    (by rw [← hsplit]; exact hchain)
                  rw [hr2] at hsuf
                  exact hsuf
                obtain ⟨m, hm, hnm⟩ := feedsChain_head g n b t hchain2
                refine ⟨m, hm, n, hnm, ?_⟩
                rw [hS2]
                dsimp only
                rw [lookup_cons_self]
                rfl
          · refine Or.inl ?_
            rw [hS2]
            dsimp only
            exact (h3 T hTpre).trans h0
      · -- a direct upstream already failed: the node is skipped with an error
        have hS2 : stepNode g fps c (meshClosure Ω g) S n =
            { S with errors := S.errors ++ [.upstream n (dedupFirst
                ((List.filter (fun u => (List.lookup u S.failRoots).isSome)
                  (g.upstreamNodes n)).flatMap
                  (fun u => (List.lookup u S.failRoots).getD [])))],
                     failRoots := (n, dedupFirst
                ((List.filter (fun u => (List.lookup u S.failRoots).isSome)
                  (g.upstreamNodes n)).flatMap
                  (fun u => (List.lookup u S.failRoots).getD []))) :: S.failRoots } := by
          simp only [stepNode]
          rw [if_neg hhit, if_neg hemp]
        refine ih (pre ++ [n]) _ (by rw [hsplit, List.append_assoc]; rfl) ?_ ?_ ?_ ?_ ?_
        · intro m hm
          rw [hS2] at hm
          dsimp only at hm
          exact List.mem_append_left _ (h1 m hm)
        · intro m hm
          rw [hS2] at hm
          dsimp only at hm
          by_cases hmn : m = n
          · exact List.mem_append_right _ (by rw [hmn]; exact List.mem_singleton.mpr rfl)
          · rw [lookup_cons_ne m n _ _ hmn] at hm
            exact List.mem_append_left _ (h2 m hm)
        · intro m hm
          rw [hS2]
          dsimp only
          exact h3 m (fun hx => hm (List.mem_append_left _ hx))
        · intro hne2 _
          cases hr2 : rest2 with
          | nil => exact absurd hr2 hne2
          | cons b t =>
              have hchain2 : Graph.feedsChain g (n :: b :: t) = true := by
                have hsuf := feedsChain_suffix g pre (n :: rest2)
                  (by rw [← hsplit]; exact hchain)
                rw [hr2] at hsuf
                exact hsuf
              obtain ⟨m, hm, hnm⟩ := feedsChain_head g n b t hchain2
              refine ⟨m, hm, n, hnm, ?_⟩
              rw [hS2]
              dsimp only
              rw [lookup_cons_self]
              rfl
        · refine Or.inl ?_
          rw [hS2]
          dsimp only
          exact (h3 T hTpre).trans h0

/-- C1 (amended): if `evaluate_mesh_graph` starts from a state with an empty
cache and no stored payload for the target, returns `Ok`, and the report has
`output_valid = false`, then the returned output payload is `None`.  (The
unamended claim over arbitrary states is refuted by
stale-payload behaviour; see the counterexample below.) -/
theorem c1_invalid_output_none (Ω : NumOracle) (c : NodeId → Q) (g : Graph) (T : NodeId)
    (st0 : MeshEvalState) (pr : MeshEvalResult × MeshEvalState)
    (hc : st0.eval.cache = []) (hs : st0.outputs.lookup T = none)
    (h : evaluateMeshGraph Ω c g T st0 = .ok pr)
    (hv : pr.1.report.outputValid = false) :
    pr.1.output = none := by
  unfold evaluateMeshGraph evaluateFromWith at h
  rcases horder : g.topoSortFrom T with e | order
  · rw [horder] at h
    exact absurd h (by simp)
  · rw [horder] at h
    dsimp only at h
    obtain ⟨hord, hchain, hlast⟩ := topoSortFrom_ok_props g T order horder
    injection h with h2
    subst h2
    dsimp only at hv ⊢
    have hres := c1_fold_aux Ω g (fingerprintsFor g order) c st0.outputs T order
      hord hchain hlast hs order []
      ⟨st0.eval.cache, [], [], [], 0, 0, [], st0.outputs⟩ rfl
      (by intro n hn; rw [hc] at hn; exact absurd hn (by simp))
      (by intro n hn; exact absurd hn (by simp))
      (fun m _ => rfl)
      (fun _ hne => absurd rfl hne)
      (Or.inr rfl)
    rcases hres with hnone | hnil
    · exact hnone
    · rw [hnil] at hv
      exact absurd hv (by simp)

/-- C1 counterexample: re-evaluating after the Box-Merge link is removed
fails the Merge node (`output_valid = false`), yet the payload stored for it
by the earlier successful pass is still handed back (`output.isSome = true`),
refuting the claim as stated for arbitrary evaluation states. -/
theorem c1_stale_output_counterexample :
    ((evaluateMeshGraph testOracle (fun _ => 0) gBoxMergeUnlinked 2 stAfterBoxMerge).toOption.map
      (fun res => (res.1.report.outputValid, res.1.output.isSome))) = some (false, true) := by
  decide

/-- Witness for the amended C1 theorem: a fresh-state evaluation of a Merge
node with no inputs fails with an invalid output and a `None` payload. -/
theorem c1_witness :
    ∃ pr : MeshEvalResult × MeshEvalState,
      evaluateMeshGraph testOracle (fun _ => 0) gMergeOnly 1 ⟨⟨[]⟩, []⟩ = .ok pr ∧
      pr.1.report.outputValid = false ∧ pr.1.output = none := by
  have hOk : (evaluateMeshGraph testOracle (fun _ => 0) gMergeOnly 1 ⟨⟨[]⟩, []⟩).isOk = true := by
    decide
  have hval : ((evaluateMeshGraph testOracle (fun _ => 0) gMergeOnly 1 ⟨⟨[]⟩, []⟩).toOption.map
      (fun res => res.1.report.outputValid)) = some false := by
    decide
  rcases hE : evaluateMeshGraph testOracle (fun _ => 0) gMergeOnly 1 ⟨⟨[]⟩, []⟩ with e | pr
  · rw [hE] at hOk
    simp [Except.isOk, Except.toBool] at hOk
  · rw [hE] at hval
    simp [Except.toOption] at hval
    exact ⟨pr, rfl, hval,
      c1_invalid_output_none testOracle (fun _ => 0) gMergeOnly 1 ⟨⟨[]⟩, []⟩ pr rfl rfl hE hval⟩
